import Mathlib

/-!
Verification of the transport-agnostic command dispatcher and the telemetry
reconciliation pipeline of the Antigravity-Man management console.

The definitions below are shallow embeddings of the TypeScript source:
* `src/utils/request.ts` (shipped inside `src/pages/Accounts.tsx` in this
  snapshot): the command registry `COMMAND_MAPPING` and the web-mode
  `request` function (path substitution, query/body placement, response
  classification, debounced 401 broadcast);
* `src/components/proxy/ProxyMonitor.tsx`: `loadData` (authoritative pull)
  and the event listener with its 500 ms debounced flush;
* `src/stores/useDebugConsole` (zustand store): `addLog`, `startPolling`,
  `stopPolling`, `startListening`, `stopListening`, `enable`, `disable`,
  `checkEnabled`.

Strings are modelled as `List Char` in the URL machinery; JavaScript string
operations (`String.prototype.includes`, first-occurrence `replace`,
`encodeURIComponent`) are reimplemented faithfully on `List Char`.
-/

namespace AGM

/-! ## JavaScript string primitives on `List Char` -/

/-- Boolean prefix test on character lists (mirrors matching a pattern at the
start of a string). -/
def isPre : List Char → List Char → Bool
  | [], _ => true
  | _ :: _, [] => false
  | a :: as, b :: bs => a = b && isPre as bs

/-- `String.prototype.includes`: does `pat` occur as a contiguous substring
of `s`? -/
def jsIncludes : List Char → List Char → Bool
  | [], pat => pat.isEmpty
  | c :: cs, pat => isPre pat (c :: cs) || jsIncludes cs pat

/-- `String.prototype.replace` with a plain-string pattern: replaces only the
first occurrence of `pat` by `rep`; returns the string unchanged when `pat`
does not occur. -/
def replaceFirst : List Char → List Char → List Char → List Char
  | [], pat, rep => if pat.isEmpty then rep else []
  | c :: cs, pat, rep =>
    if isPre pat (c :: cs) then rep ++ (c :: cs).drop pat.length
    else c :: replaceFirst cs pat rep

/-! ## `encodeURIComponent` -/

/-- Characters `encodeURIComponent` leaves unescaped:
`A-Z a-z 0-9 - _ . ! ~ * ' ( )`. -/
def isUnreservedURI (c : Char) : Bool :=
  let n := c.toNat
  (65 ≤ n && n ≤ 90) || (97 ≤ n && n ≤ 122) || (48 ≤ n && n ≤ 57) ||
  (n == 45) || (n == 95) || (n == 46) || (n == 33) || (n == 126) ||
  (n == 42) || (n == 39) || (n == 40) || (n == 41)

/-- Uppercase hexadecimal digits. -/
def hexChars : List Char :=
  ['0', '1', '2', '3', '4', '5', '6', '7', '8', '9', 'A', 'B', 'C', 'D', 'E', 'F']

def hexDig (n : Nat) : Char := hexChars.getD (n % 16) '0'

/-- UTF-8 bytes of a code point (standard 1–4 byte encoding). -/
def utf8Bytes (n : Nat) : List Nat :=
  if n < 0x80 then [n]
  else if n < 0x800 then [0xC0 + n / 64, 0x80 + n % 64]
  else if n < 0x10000 then [0xE0 + n / 4096, 0x80 + n / 64 % 64, 0x80 + n % 64]
  else [0xF0 + n / 262144, 0x80 + n / 4096 % 64, 0x80 + n / 64 % 64, 0x80 + n % 64]

/-- Percent-encoding of one byte, e.g. `58 ↦ "%3A"`. -/
def pctByte (b : Nat) : List Char := ['%', hexDig (b / 16 % 16), hexDig (b % 16)]

/-- `encodeURIComponent` on a single character. -/
def encChar (c : Char) : List Char :=
  if isUnreservedURI c then [c] else (utf8Bytes c.toNat).flatMap pctByte

/-- `encodeURIComponent` on a string. -/
def encodeURIComponent (s : List Char) : List Char := s.flatMap encChar

/-- Every character emitted by `encodeURIComponent` is either unreserved,
a percent sign, or an uppercase hex digit. -/
def okURIChar (c : Char) : Bool :=
  isUnreservedURI c || c == '%' || ((48 ≤ c.toNat && c.toNat ≤ 57) || (65 ≤ c.toNat && c.toNat ≤ 70))

/-! ## JavaScript values and coercion to string -/

/-- The scalar / JSON-serialisable values the dispatcher receives as
invocation arguments. -/
inductive JsValue where
  | vStr (s : String)
  | vNum (n : Int)
  | vBool (b : Bool)
  | vNull
  | vUndefined
  | vObj (fields : List (String × JsValue))
  deriving Repr

/-- JavaScript `String(value)` for the values above. -/
def jsString : JsValue → String
  | .vStr s => s
  | .vNum n => toString n
  | .vBool b => if b then "true" else "false"
  | .vNull => "null"
  | .vUndefined => "undefined"
  | .vObj _ => "[object Object]"

/-! ## The command registry (from `COMMAND_MAPPING`) -/

inductive HttpMethod where
  | GET | POST | DELETE | PATCH
  deriving DecidableEq, Repr

structure CommandDescriptor where
  url : String
  method : HttpMethod
  deriving DecidableEq, Repr

/-- Slice 0 of the command registry (split only to keep elaboration fast). -/
def CM0 : List (String × CommandDescriptor) := [
  ("list_accounts", ⟨"/api/accounts", .GET⟩),
  ("get_current_account", ⟨"/api/accounts/current", .GET⟩),
  ("switch_account", ⟨"/api/accounts/switch", .POST⟩),
  ("add_account", ⟨"/api/accounts", .POST⟩),
  ("delete_account", ⟨"/api/accounts/:accountId", .DELETE⟩),
  ("delete_accounts", ⟨"/api/accounts/bulk-delete", .POST⟩),
  ("fetch_account_quota", ⟨"/api/accounts/:accountId/quota", .GET⟩),
  ("refresh_account_quota", ⟨"/api/accounts/:accountId/quota", .GET⟩),
  ("refresh_all_quotas", ⟨"/api/accounts/refresh", .POST⟩),
  ("reorder_accounts", ⟨"/api/accounts/reorder", .POST⟩),
  ("toggle_proxy_status", ⟨"/api/accounts/:accountId/toggle-proxy", .POST⟩),
  ("warm_up_accounts", ⟨"/api/accounts/warmup", .POST⟩),
  ("warm_up_all_accounts", ⟨"/api/accounts/warmup", .POST⟩),
  ("warm_up_account", ⟨"/api/accounts/:accountId/warmup", .POST⟩),
  ("update_account_label", ⟨"/api/accounts/:accountId/label", .POST⟩),
  ("export_accounts", ⟨"/api/accounts/export", .POST⟩),
  ("bind_device_profile", ⟨"/api/accounts/:accountId/bind-device", .POST⟩),
  ("get_device_profiles", ⟨"/api/accounts/:accountId/device-profiles", .GET⟩),
  ("list_device_versions", ⟨"/api/accounts/:accountId/device-versions", .GET⟩),
  ("preview_generate_profile", ⟨"/api/accounts/device-preview", .POST⟩),
  ("bind_device_profile_with_profile", ⟨"/api/accounts/:accountId/bind-device-profile", .POST⟩),
  ("restore_original_device", ⟨"/api/accounts/restore-original", .POST⟩),
  ("restore_device_version", ⟨"/api/accounts/:accountId/device-versions/:versionId/restore", .POST⟩),
  ("delete_device_version", ⟨"/api/accounts/:accountId/device-versions/:versionId", .DELETE⟩),
  ("open_device_folder", ⟨"/api/system/open-folder", .POST⟩)]

/-- Slice 1 of the command registry (split only to keep elaboration fast). -/
def CM1 : List (String × CommandDescriptor) := [
  ("get_proxy_status", ⟨"/api/proxy/status", .GET⟩),
  ("start_proxy_service", ⟨"/api/proxy/start", .POST⟩),
  ("stop_proxy_service", ⟨"/api/proxy/stop", .POST⟩),
  ("update_model_mapping", ⟨"/api/proxy/mapping", .POST⟩),
  ("generate_api_key", ⟨"/api/proxy/api-key/generate", .POST⟩),
  ("clear_proxy_session_bindings", ⟨"/api/proxy/session-bindings/clear", .POST⟩),
  ("clear_proxy_rate_limit", ⟨"/api/proxy/rate-limits/:accountId", .DELETE⟩),
  ("clear_all_proxy_rate_limits", ⟨"/api/proxy/rate-limits", .DELETE⟩),
  ("check_proxy_health", ⟨"/api/proxy/health-check/trigger", .POST⟩),
  ("get_preferred_account", ⟨"/api/proxy/preferred-account", .GET⟩),
  ("set_preferred_account", ⟨"/api/proxy/preferred-account", .POST⟩),
  ("fetch_zai_models", ⟨"/api/zai/models/fetch", .POST⟩),
  ("load_config", ⟨"/api/config", .GET⟩),
  ("save_config", ⟨"/api/config", .POST⟩),
  ("get_proxy_stats", ⟨"/api/proxy/stats", .GET⟩),
  ("set_proxy_monitor_enabled", ⟨"/api/proxy/monitor/toggle", .POST⟩),
  ("get_proxy_logs_filtered", ⟨"/api/logs", .GET⟩),
  ("get_proxy_logs_count_filtered", ⟨"/api/logs/count", .GET⟩),
  ("clear_proxy_logs", ⟨"/api/logs/clear", .POST⟩),
  ("get_proxy_log_detail", ⟨"/api/logs/:logId", .GET⟩),
  ("enable_debug_console", ⟨"/api/debug/enable", .POST⟩),
  ("disable_debug_console", ⟨"/api/debug/disable", .POST⟩),
  ("is_debug_console_enabled", ⟨"/api/debug/enabled", .GET⟩),
  ("get_debug_console_logs", ⟨"/api/debug/logs", .GET⟩),
  ("clear_debug_console_logs", ⟨"/api/debug/logs/clear", .POST⟩)]

/-- Slice 2 of the command registry (split only to keep elaboration fast). -/
def CM2 : List (String × CommandDescriptor) := [
  ("get_cli_sync_status", ⟨"/api/proxy/cli/status", .POST⟩),
  ("execute_cli_sync", ⟨"/api/proxy/cli/sync", .POST⟩),
  ("execute_cli_restore", ⟨"/api/proxy/cli/restore", .POST⟩),
  ("get_cli_config_content", ⟨"/api/proxy/cli/config", .POST⟩),
  ("get_opencode_sync_status", ⟨"/api/proxy/opencode/status", .POST⟩),
  ("execute_opencode_sync", ⟨"/api/proxy/opencode/sync", .POST⟩),
  ("execute_opencode_restore", ⟨"/api/proxy/opencode/restore", .POST⟩),
  ("get_opencode_config_content", ⟨"/api/proxy/opencode/config", .POST⟩),
  ("get_token_stats_hourly", ⟨"/api/stats/token/hourly", .GET⟩),
  ("get_token_stats_daily", ⟨"/api/stats/token/daily", .GET⟩),
  ("get_token_stats_weekly", ⟨"/api/stats/token/weekly", .GET⟩),
  ("get_token_stats_by_account", ⟨"/api/stats/token/by-account", .GET⟩),
  ("get_token_stats_summary", ⟨"/api/stats/token/summary", .GET⟩),
  ("get_token_stats_by_model", ⟨"/api/stats/token/by-model", .GET⟩),
  ("get_token_stats_model_trend_hourly", ⟨"/api/stats/token/model-trend/hourly", .GET⟩),
  ("get_token_stats_model_trend_daily", ⟨"/api/stats/token/model-trend/daily", .GET⟩),
  ("get_token_stats_account_trend_hourly", ⟨"/api/stats/token/account-trend/hourly", .GET⟩),
  ("get_token_stats_account_trend_daily", ⟨"/api/stats/token/account-trend/daily", .GET⟩),
  ("clear_token_stats", ⟨"/api/stats/token/clear", .POST⟩),
  ("get_data_dir_path", ⟨"/api/system/data-dir", .GET⟩),
  ("get_update_settings", ⟨"/api/system/updates/settings", .GET⟩),
  ("save_update_settings", ⟨"/api/system/updates/save", .POST⟩),
  ("is_auto_launch_enabled", ⟨"/api/system/autostart/status", .GET⟩),
  ("toggle_auto_launch", ⟨"/api/system/autostart/toggle", .POST⟩),
  ("get_http_api_settings", ⟨"/api/system/http-api/settings", .GET⟩)]

/-- Slice 3 of the command registry (split only to keep elaboration fast). -/
def CM3 : List (String × CommandDescriptor) := [
  ("save_http_api_settings", ⟨"/api/system/http-api/settings", .POST⟩),
  ("get_antigravity_path", ⟨"/api/system/antigravity/path", .GET⟩),
  ("get_antigravity_args", ⟨"/api/system/antigravity/args", .GET⟩),
  ("cloudflared_install", ⟨"/api/proxy/cloudflared/install", .POST⟩),
  ("cloudflared_start", ⟨"/api/proxy/cloudflared/start", .POST⟩),
  ("cloudflared_stop", ⟨"/api/proxy/cloudflared/stop", .POST⟩),
  ("cloudflared_get_status", ⟨"/api/proxy/cloudflared/status", .GET⟩),
  ("should_check_updates", ⟨"/api/system/updates/check-status", .GET⟩),
  ("check_for_updates", ⟨"/api/system/updates/check", .POST⟩),
  ("update_last_check_time", ⟨"/api/system/updates/touch", .POST⟩),
  ("prepare_oauth_url", ⟨"/api/auth/url", .GET⟩),
  ("start_oauth_login", ⟨"/api/accounts/oauth/start", .POST⟩),
  ("complete_oauth_login", ⟨"/api/accounts/oauth/complete", .POST⟩),
  ("cancel_oauth_login", ⟨"/api/accounts/oauth/cancel", .POST⟩),
  ("submit_oauth_code", ⟨"/api/accounts/oauth/submit-code", .POST⟩),
  ("import_v1_accounts", ⟨"/api/accounts/import/v1", .POST⟩),
  ("import_from_db", ⟨"/api/accounts/import/db", .POST⟩),
  ("import_custom_db", ⟨"/api/accounts/import/db-custom", .POST⟩),
  ("sync_account_from_db", ⟨"/api/accounts/sync/db", .POST⟩),
  ("open_data_folder", ⟨"/api/system/open-folder", .POST⟩),
  ("clear_antigravity_cache", ⟨"/api/system/cache/clear", .POST⟩),
  ("get_antigravity_cache_paths", ⟨"/api/system/cache/paths", .GET⟩),
  ("clear_log_cache", ⟨"/api/system/logs/clear-cache", .POST⟩),
  ("get_ip_access_logs", ⟨"/api/security/logs", .GET⟩),
  ("clear_ip_access_logs", ⟨"/api/security/logs/clear", .POST⟩)]

/-- Slice 4 of the command registry (split only to keep elaboration fast). -/
def CM4 : List (String × CommandDescriptor) := [
  ("get_ip_stats", ⟨"/api/security/stats", .GET⟩),
  ("get_ip_token_stats", ⟨"/api/security/token-stats", .GET⟩),
  ("get_ip_blacklist", ⟨"/api/security/blacklist", .GET⟩),
  ("add_ip_to_blacklist", ⟨"/api/security/blacklist", .POST⟩),
  ("remove_ip_from_blacklist", ⟨"/api/security/blacklist", .DELETE⟩),
  ("clear_ip_blacklist", ⟨"/api/security/blacklist/clear", .POST⟩),
  ("check_ip_in_blacklist", ⟨"/api/security/blacklist/check", .GET⟩),
  ("get_ip_whitelist", ⟨"/api/security/whitelist", .GET⟩),
  ("add_ip_to_whitelist", ⟨"/api/security/whitelist", .POST⟩),
  ("remove_ip_from_whitelist", ⟨"/api/security/whitelist", .DELETE⟩),
  ("clear_ip_whitelist", ⟨"/api/security/whitelist/clear", .POST⟩),
  ("check_ip_in_whitelist", ⟨"/api/security/whitelist/check", .GET⟩),
  ("get_security_config", ⟨"/api/security/config", .GET⟩),
  ("update_security_config", ⟨"/api/security/config", .POST⟩),
  ("list_user_tokens", ⟨"/api/user-tokens", .GET⟩),
  ("get_user_token_summary", ⟨"/api/user-tokens/summary", .GET⟩),
  ("create_user_token", ⟨"/api/user-tokens", .POST⟩),
  ("renew_user_token", ⟨"/api/user-tokens/:id/renew", .POST⟩),
  ("delete_user_token", ⟨"/api/user-tokens/:id", .DELETE⟩),
  ("update_user_token", ⟨"/api/user-tokens/:id", .PATCH⟩),
  ("get_proxy_pool_config", ⟨"/api/proxy/pool/config", .GET⟩),
  ("get_all_account_bindings", ⟨"/api/proxy/pool/bindings", .GET⟩),
  ("bind_account_proxy", ⟨"/api/proxy/pool/bind", .POST⟩),
  ("unbind_account_proxy", ⟨"/api/proxy/pool/unbind", .POST⟩),
  ("get_account_proxy_binding", ⟨"/api/proxy/pool/binding/:accountId", .GET⟩)]

/-- The full static command registry of `src/utils/request.ts`
(`COMMAND_MAPPING`), one entry per logical command name. -/
def COMMAND_MAPPING : List (String × CommandDescriptor) :=
  CM0 ++ CM1 ++ CM2 ++ CM3 ++ CM4

/-- JavaScript object lookup `COMMAND_MAPPING[cmd]` (registry keys are
pairwise distinct, so first-match lookup coincides with JS semantics). -/
def lookupMapping (cmd : String) : Option CommandDescriptor :=
  (COMMAND_MAPPING.find? (fun e => e.1 == cmd)).map (·.2)

/-! ## Web-mode request construction (`request` in `src/utils/request.ts`)

The function iterates over `Object.keys(args)`: for each key whose `:key`
placeholder occurs in the URL it substitutes the URL-encoded value (first
occurrence, JS `replace`) and deletes the key from the working copy
`bodyArgs`.  Arguments are modelled as an association list in insertion
order, matching JS object key order. -/

/-- State of the path-substitution loop: current URL, the working copy of
the args (`bodyArgs`), and the keys already consumed by path substitution
(tracked for the theorems; the source equivalently tracks them through the
`delete` calls). -/
structure ResolveState where
  url : List Char
  bodyArgs : List (String × JsValue)
  consumed : List (String × JsValue)

/-- One iteration of the `Object.keys(args).forEach` path-substitution
loop. -/
def substStep (st : ResolveState) (kv : String × JsValue) : ResolveState :=
  let placeholder := ':' :: kv.1.data
  if jsIncludes st.url placeholder then
    { url := replaceFirst st.url placeholder (encodeURIComponent (jsString kv.2).data),
      bodyArgs := st.bodyArgs.filter (fun e => e.1 ≠ kv.1),
      consumed := st.consumed ++ [kv] }
  else st

/-- Path resolution: the whole substitution loop, started on the template
with `bodyArgs` a copy of `args`. -/
def resolvePath (url0 : String) (args : List (String × JsValue)) : ResolveState :=
  args.foldl substStep { url := url0.data, bodyArgs := args, consumed := [] }

/-- Query-parameter construction for GET/DELETE: iterate over the original
`args`; skip an entry whose URL-encoded value already occurs in the resolved
URL; append the rest unless the value is `undefined`/`null`. -/
def queryParams (url : List Char) (args : List (String × JsValue)) : List (String × String) :=
  args.filterMap (fun kv =>
    if jsIncludes url (encodeURIComponent (jsString kv.2).data) then none
    else match kv.2 with
      | .vUndefined => none
      | .vNull => none
      | v => some (kv.1, jsString v))

/-- `bodyArgs.request !== undefined` (JS gives `undefined` both for an
absent key and for a present key holding `undefined`). -/
def isUndef : JsValue → Bool
  | .vUndefined => true
  | _ => false

def lookupKey (xs : List (String × JsValue)) (k : String) : Option JsValue :=
  (xs.find? (fun e => e.1 == k)).map (·.2)

/-- The JSON body sent for POST/PATCH. -/
inductive RequestBody where
  | jsonValue (v : JsValue)
  | jsonObject (fields : List (String × JsValue))
  deriving Repr

/-- `const body = bodyArgs.request !== undefined ? bodyArgs.request : bodyArgs`. -/
def requestBody (bodyArgs : List (String × JsValue)) : RequestBody :=
  match lookupKey bodyArgs "request" with
  | some v => if isUndef v then .jsonObject bodyArgs else .jsonValue v
  | none => .jsonObject bodyArgs

/-- The HTTP request the web branch of `request` is about to issue. -/
structure BuiltRequest where
  url : List Char
  method : HttpMethod
  query : List (String × String)
  body : Option RequestBody
  deriving Repr

/-- Request construction for one registry descriptor: path substitution,
then query/body placement by method. -/
def buildForMapping (mapping : CommandDescriptor) (args : Option (List (String × JsValue))) :
    BuiltRequest :=
  let st : ResolveState :=
    match args with
    | none => { url := mapping.url.data, bodyArgs := [], consumed := [] }
    | some as => resolvePath mapping.url as
  match mapping.method with
  | .GET | .DELETE =>
    let q := match args with
      | none => []
      | some as => queryParams st.url as
    { url := st.url, method := mapping.method, query := q, body := none }
  | .POST | .PATCH =>
    let b := match args with
      | none => none
      | some _ => some (requestBody st.bodyArgs)
    { url := st.url, method := mapping.method, query := [], body := b }

/-- Web-mode request construction: registry lookup (failing fast on an
unmapped command, before any fetch), then `buildForMapping`. -/
def buildWebRequest (cmd : String) (args : Option (List (String × JsValue))) :
    Except String BuiltRequest :=
  match lookupMapping cmd with
  | none => .error ("Command [" ++ cmd ++ "] not supported in Web mode.")
  | some mapping => .ok (buildForMapping mapping args)

/-! ### URLSearchParams serialisation (for the final URL of the scenario) -/

/-- Characters the `application/x-www-form-urlencoded` serialiser leaves
unescaped: `A-Z a-z 0-9 * - . _`. -/
def isFormSafe (c : Char) : Bool :=
  let n := c.toNat
  (65 ≤ n && n ≤ 90) || (97 ≤ n && n ≤ 122) || (48 ≤ n && n ≤ 57) ||
  (n == 42) || (n == 45) || (n == 46) || (n == 95)

def formChar (c : Char) : List Char :=
  if c = ' ' then ['+']
  else if isFormSafe c then [c]
  else (utf8Bytes c.toNat).flatMap pctByte

def formEncode (s : String) : List Char := s.data.flatMap formChar

/-- `URLSearchParams.toString()`. -/
def renderQuery (q : List (String × String)) : List Char :=
  List.intercalate ['&'] (q.map (fun kv => formEncode kv.1 ++ '=' :: formEncode kv.2))

/-- `const qs = params.toString(); if (qs) url += "?" + qs;` -/
def finalUrl (r : BuiltRequest) : List Char :=
  if (renderQuery r.query).isEmpty then r.url else r.url ++ '?' :: renderQuery r.query

/-! ## Structured view of a path template

For the general substitution theorems the template string is parsed into
alternating literal and `:param` pieces; `render` maps back to the string.
For every registry template, parsing round-trips and the well-formedness
checks below hold (verified by evaluation in `COMMAND_MAPPING_wf`). -/

inductive Piece where
  | lit (s : List Char)
  | param (nm : List Char)
  deriving DecidableEq, Repr

def render : List Piece → List Char
  | [] => []
  | .lit s :: ps => s ++ render ps
  | .param nm :: ps => ':' :: (nm ++ render ps)

/-- Longest run of characters up to the next ':'. -/
def litSpan : List Char → List Char × List Char
  | [] => ([], [])
  | c :: cs =>
    if c = ':' then ([], c :: cs)
    else
      let p := litSpan cs
      (c :: p.1, p.2)

/-- Longest run of characters up to the next '/' or ':'. -/
def nameSpan : List Char → List Char × List Char
  | [] => ([], [])
  | c :: cs =>
    if c = '/' || c = ':' then ([], c :: cs)
    else
      let p := nameSpan cs
      (c :: p.1, p.2)

def parsePieces : Nat → List Char → List Piece
  | 0, _ => []
  | _ + 1, [] => []
  | fuel + 1, c :: cs =>
    if c = ':' then
      let p := nameSpan cs
      .param p.1 :: parsePieces fuel p.2
    else
      let p := litSpan (c :: cs)
      .lit p.1 :: parsePieces fuel p.2

def parseTemplate (url : String) : List Piece :=
  parsePieces (url.data.length + 1) url.data

def paramNames : List Piece → List (List Char)
  | [] => []
  | .lit _ :: ps => paramNames ps
  | .param nm :: ps => nm :: paramNames ps

/-- Does the rendered continuation start with '/'? (the delimiter that ends
every parameter name in the registry templates). -/
def startsSlash : List Piece → Bool
  | [] => true
  | .lit (c :: _) :: _ => c = '/'
  | _ => false

/-- Structural well-formedness: literals are colon-free, parameter names are
colon- and slash-free, and every parameter is followed by a '/'-initial
literal or is last. -/
def wfPieces : List Piece → Bool
  | [] => true
  | .lit s :: ps => s.all (fun c => c != ':') && wfPieces ps
  | .param nm :: ps =>
    nm.all (fun c => c != ':') && nm.all (fun c => c != '/') &&
    startsSlash ps && wfPieces ps

/-- No parameter name is a prefix of another (in particular all names are
distinct). -/
def namesOK : List (List Char) → Bool
  | [] => true
  | nm :: rest => rest.all (fun x => !isPre nm x && !isPre x nm) && namesOK rest

def wfTemplate (ps : List Piece) : Bool :=
  wfPieces ps && namesOK (paramNames ps)

/-- Piece-level substitution: convert the first parameter whose name has `k`
as a prefix into the literal `rep ++ (rest of the name)`. -/
def subst1 : List Piece → List Char → List Char → List Piece
  | [], _, _ => []
  | .lit s :: ps, k, rep => .lit s :: subst1 ps k rep
  | .param nm :: ps, k, rep =>
    if isPre k nm then .lit (rep ++ nm.drop k.length) :: ps
    else .param nm :: subst1 ps k rep

/-- Is there a parameter whose name has `k` as a prefix? -/
def hasParamPre (ps : List Piece) (k : List Char) : Bool :=
  ps.any (fun p => match p with | .param nm => isPre k nm | .lit _ => false)

/-- Piece-level mirror of `ResolveState`. -/
structure PieceState where
  pieces : List Piece
  bodyArgs : List (String × JsValue)
  consumed : List (String × JsValue)

/-- Piece-level mirror of `substStep`. -/
def pieceStep (st : PieceState) (kv : String × JsValue) : PieceState :=
  if hasParamPre st.pieces kv.1.data then
    { pieces := subst1 st.pieces kv.1.data (encodeURIComponent (jsString kv.2).data),
      bodyArgs := st.bodyArgs.filter (fun e => e.1 ≠ kv.1),
      consumed := st.consumed ++ [kv] }
  else st

/-! ## Lemmas about the string primitives -/

theorem isPre_refl (k : List Char) : isPre k k = true := by
  induction k with
  | nil => rfl
  | cons c cs ih => simp [isPre, ih]

theorem isPre_append_right {k a : List Char} (b : List Char) (h : isPre k a = true) :
    isPre k (a ++ b) = true := by
  induction k generalizing a with
  | nil => rfl
  | cons c cs ih =>
    cases a with
    | nil => simp [isPre] at h
    | cons d ds =>
      simp only [isPre, Bool.and_eq_true, decide_eq_true_eq] at h
      simp only [List.cons_append, isPre, Bool.and_eq_true, decide_eq_true_eq]
      exact ⟨h.1, ih h.2⟩

theorem isPre_length {k s : List Char} (h : isPre k s = true) : k.length ≤ s.length := by
  induction k generalizing s with
  | nil => simp
  | cons c cs ih =>
    cases s with
    | nil => simp [isPre] at h
    | cons d ds =>
      simp only [isPre, Bool.and_eq_true] at h
      simpa using ih h.2

theorem eq_append_of_isPre {k s : List Char} (h : isPre k s = true) :
    ∃ t, s = k ++ t := by
  induction k generalizing s with
  | nil => exact ⟨s, rfl⟩
  | cons c cs ih =>
    cases s with
    | nil => simp [isPre] at h
    | cons d ds =>
      simp only [isPre, Bool.and_eq_true, decide_eq_true_eq] at h
      obtain ⟨t, ht⟩ := ih h.2
      exact ⟨t, by simp [h.1, ht]⟩

theorem isPre_append_cases {k a b : List Char} (h : isPre k (a ++ b) = true) :
    isPre k a = true ∨ ∃ k2, k = a ++ k2 ∧ isPre k2 b = true := by
  induction a generalizing k with
  | nil => exact .inr ⟨k, rfl, h⟩
  | cons c cs ih =>
    cases k with
    | nil => exact .inl rfl
    | cons d ds =>
      simp only [List.cons_append, isPre, Bool.and_eq_true, decide_eq_true_eq] at h
      rcases ih h.2 with h1 | ⟨k2, hk2, hp⟩
      · exact .inl (by simp [isPre, h.1, h1])
      · exact .inr ⟨k2, by simp [h.1, hk2], hp⟩

theorem jsIncludes_nil_pat (s : List Char) : jsIncludes s [] = true := by
  cases s <;> simp [jsIncludes, isPre]

theorem jsIncludes_append_no_colon {s : List Char} (t k : List Char)
    (hs : ∀ c ∈ s, c ≠ ':') :
    jsIncludes (s ++ t) (':' :: k) = jsIncludes t (':' :: k) := by
  induction s with
  | nil => rfl
  | cons c cs ih =>
    have hc : c ≠ ':' := hs c (by simp)
    have hpre : isPre (':' :: k) (c :: (cs ++ t)) = false := by
      simp only [isPre, Bool.and_eq_false_iff]
      left
      simpa [eq_comm] using hc
    have step : jsIncludes ((c :: cs) ++ t) (':' :: k)
        = (isPre (':' :: k) (c :: (cs ++ t)) || jsIncludes (cs ++ t) (':' :: k)) := rfl
    rw [step, hpre, Bool.false_or]
    exact ih (fun x hx => hs x (by simp [hx]))

theorem jsIncludes_parts (a x b : List Char) : jsIncludes (a ++ (x ++ b)) x = true := by
  induction a with
  | nil =>
    cases x with
    | nil => simpa using jsIncludes_nil_pat b
    | cons c cs =>
      have hpre : isPre (c :: cs) ((c :: cs) ++ b) = true :=
        isPre_append_right b (isPre_refl (c :: cs))
      have step : jsIncludes ([] ++ ((c :: cs) ++ b)) (c :: cs)
          = (isPre (c :: cs) (c :: (cs ++ b)) || jsIncludes (cs ++ b) (c :: cs)) := rfl
      rw [step]
      rw [List.cons_append] at hpre
      rw [hpre, Bool.true_or]
  | cons d ds ih =>
    have step : jsIncludes ((d :: ds) ++ (x ++ b)) x
        = (isPre x (d :: (ds ++ (x ++ b))) || jsIncludes (ds ++ (x ++ b)) x) := rfl
    rw [step, ih, Bool.or_true]

theorem replaceFirst_append_no_colon {s : List Char} (t k rep : List Char)
    (hs : ∀ c ∈ s, c ≠ ':') :
    replaceFirst (s ++ t) (':' :: k) rep = s ++ replaceFirst t (':' :: k) rep := by
  induction s with
  | nil => rfl
  | cons c cs ih =>
    have hc : c ≠ ':' := hs c (by simp)
    have hpre : isPre (':' :: k) (c :: (cs ++ t)) = false := by
      simp only [isPre, Bool.and_eq_false_iff]
      left
      simpa [eq_comm] using hc
    have step : replaceFirst ((c :: cs) ++ t) (':' :: k) rep
        = (if isPre (':' :: k) (c :: (cs ++ t)) then
            rep ++ (c :: (cs ++ t)).drop (':' :: k).length
          else c :: replaceFirst (cs ++ t) (':' :: k) rep) := rfl
    rw [step, hpre, if_neg (by simp : ¬(false = true)), List.cons_append]
    exact congrArg (c :: ·) (ih (fun x hx => hs x (by simp [hx])))

/-! ## `encodeURIComponent` never emits ':' or '/' -/

theorem okURIChar_hexDig (n : Nat) : okURIChar (hexDig n) = true := by
  have h : n % 16 < 16 := Nat.mod_lt _ (by norm_num)
  have : ∀ m, m < 16 → okURIChar (hexChars.getD m '0') = true := by decide
  exact this (n % 16) h

theorem okURIChar_of_mem_encChar {c x : Char} (h : x ∈ encChar c) : okURIChar x = true := by
  unfold encChar at h
  by_cases hu : isUnreservedURI c = true
  · rw [if_pos hu] at h
    simp only [List.mem_singleton] at h
    subst h
    simp [okURIChar, hu]
  · rw [if_neg hu] at h
    rw [List.mem_flatMap] at h
    obtain ⟨b, _, hb⟩ := h
    simp only [pctByte, List.mem_cons, List.mem_singleton] at hb
    rcases hb with rfl | rfl | rfl | hfalse
    · decide
    · exact okURIChar_hexDig _
    · exact okURIChar_hexDig _
    · simp at hfalse

theorem mem_encodeURIComponent_ne {s : List Char} {x : Char}
    (h : x ∈ encodeURIComponent s) : x ≠ ':' ∧ x ≠ '/' := by
  rw [encodeURIComponent, List.mem_flatMap] at h
  obtain ⟨c, _, hc⟩ := h
  have hok := okURIChar_of_mem_encChar hc
  constructor
  · rintro rfl
    exact absurd hok (by decide)
  · rintro rfl
    exact absurd hok (by decide)

/-! ## Simulation between string-level and piece-level substitution -/

/-- A parameter key that contains no '/' cannot match past the end of a
well-delimited parameter name. -/
theorem isPre_param_tail {k nm : List Char} {ps : List Piece}
    (hss : startsSlash ps = true) (hsk : ∀ c ∈ k, c ≠ '/')
    (hnm : isPre k nm = false) : isPre k (nm ++ render ps) = false := by
  cases hq : isPre k (nm ++ render ps) with
  | false => rfl
  | true =>
    exfalso
    rcases isPre_append_cases hq with h1 | ⟨k2, hk2, hp⟩
    · rw [h1] at hnm
      exact Bool.true_eq_false.mp hnm
    · cases k2 with
      | nil =>
        rw [List.append_nil] at hk2
        subst hk2
        rw [isPre_refl] at hnm
        exact Bool.true_eq_false.mp hnm
      | cons d k2t =>
        have hdk : d ∈ k := by
          rw [hk2]
          simp
        cases ps with
        | nil => simp [render, isPre] at hp
        | cons p rest =>
          cases p with
          | lit s =>
            cases s with
            | nil => simp [startsSlash] at hss
            | cons c0 s' =>
              have hc0 : c0 = '/' := by
                simpa [startsSlash] using hss
              have : render (.lit (c0 :: s') :: rest) = c0 :: (s' ++ render rest) := rfl
              rw [this] at hp
              simp only [isPre, Bool.and_eq_true, decide_eq_true_eq] at hp
              exact hsk d hdk (hp.1.trans hc0)
          | param nm2 => simp [startsSlash] at hss
  
theorem wf_lit_head {s : List Char} {ps : List Piece}
    (h : wfPieces (.lit s :: ps) = true) :
    (∀ c ∈ s, c ≠ ':') ∧ wfPieces ps = true := by
  simp only [wfPieces, Bool.and_eq_true, List.all_eq_true, bne_iff_ne] at h
  exact ⟨fun c hc => h.1 c hc, h.2⟩

theorem wf_param_head {nm : List Char} {ps : List Piece}
    (h : wfPieces (.param nm :: ps) = true) :
    (∀ c ∈ nm, c ≠ ':') ∧ (∀ c ∈ nm, c ≠ '/') ∧ startsSlash ps = true ∧ wfPieces ps = true := by
  simp only [wfPieces, Bool.and_eq_true, List.all_eq_true, bne_iff_ne] at h
  exact ⟨fun c hc => h.1.1.1 c hc, fun c hc => h.1.1.2 c hc, h.1.2, h.2⟩

/-- String-level `replace` agrees with piece-level substitution. -/
theorem replaceFirst_render {ps : List Piece} {k rep : List Char}
    (hwf : wfPieces ps = true) (hsk : ∀ c ∈ k, c ≠ '/') :
    replaceFirst (render ps) (':' :: k) rep = render (subst1 ps k rep) := by
  induction ps with
  | nil => rfl
  | cons p rest ih =>
    cases p with
    | lit s =>
      obtain ⟨hs, hrest⟩ := wf_lit_head hwf
      have step : render (.lit s :: rest) = s ++ render rest := rfl
      rw [step, replaceFirst_append_no_colon (render rest) k rep hs, ih hrest]
      rfl
    | param nm =>
      obtain ⟨hnmc, hnms, hss, hrest⟩ := wf_param_head hwf
      have step : render (.param nm :: rest) = ':' :: (nm ++ render rest) := rfl
      rw [step]
      cases hmatch : isPre k nm with
      | true =>
        have hpre : isPre (':' :: k) (':' :: (nm ++ render rest)) = true := by
          simp only [isPre, Bool.and_eq_true, decide_eq_true_eq]
          refine ⟨?_, isPre_append_right _ hmatch⟩
          trivial
        have stepR : replaceFirst (':' :: (nm ++ render rest)) (':' :: k) rep
            = (if isPre (':' :: k) (':' :: (nm ++ render rest)) then
                rep ++ (':' :: (nm ++ render rest)).drop (':' :: k).length
              else ':' :: replaceFirst (nm ++ render rest) (':' :: k) rep) := rfl
        rw [stepR, if_pos hpre]
        have hdrop : (':' :: (nm ++ render rest)).drop (':' :: k).length
            = nm.drop k.length ++ render rest := by
          have : (':' :: k).length = k.length + 1 := by simp
          rw [this]
          have : (':' :: (nm ++ render rest)).drop (k.length + 1)
              = (nm ++ render rest).drop k.length := by simp
          rw [this, List.drop_append_of_le_length (isPre_length hmatch)]
        rw [hdrop]
        have stepS : subst1 (.param nm :: rest) k rep
            = .lit (rep ++ nm.drop k.length) :: rest := by
          simp [subst1, hmatch]
        rw [stepS]
        have : render (.lit (rep ++ nm.drop k.length) :: rest)
            = (rep ++ nm.drop k.length) ++ render rest := rfl
        rw [this, List.append_assoc]
      | false =>
        have hnopre : isPre k (nm ++ render rest) = false :=
          isPre_param_tail hss hsk hmatch
        have hpre : isPre (':' :: k) (':' :: (nm ++ render rest)) = false := by
          simp only [isPre, Bool.and_eq_false_iff]
          right
          exact hnopre
        have stepR : replaceFirst (':' :: (nm ++ render rest)) (':' :: k) rep
            = (if isPre (':' :: k) (':' :: (nm ++ render rest)) then
                rep ++ (':' :: (nm ++ render rest)).drop (':' :: k).length
              else ':' :: replaceFirst (nm ++ render rest) (':' :: k) rep) := rfl
        rw [stepR, if_neg (by simp [hpre])]
        rw [replaceFirst_append_no_colon (render rest) k rep hnmc, ih hrest]
        have stepS : subst1 (.param nm :: rest) k rep
            = .param nm :: subst1 rest k rep := by
          simp [subst1, hmatch]
        rw [stepS]
        rfl

/-- String-level `includes` of a placeholder agrees with the piece-level
parameter-prefix test. -/
theorem jsIncludes_render {ps : List Piece} {k : List Char}
    (hwf : wfPieces ps = true) (hsk : ∀ c ∈ k, c ≠ '/') :
    jsIncludes (render ps) (':' :: k) = hasParamPre ps k := by
  induction ps with
  | nil => rfl
  | cons p rest ih =>
    cases p with
    | lit s =>
      obtain ⟨hs, hrest⟩ := wf_lit_head hwf
      have step : render (.lit s :: rest) = s ++ render rest := rfl
      rw [step, jsIncludes_append_no_colon (render rest) k hs, ih hrest]
      simp [hasParamPre]
    | param nm =>
      obtain ⟨hnmc, hnms, hss, hrest⟩ := wf_param_head hwf
      have step : render (.param nm :: rest) = ':' :: (nm ++ render rest) := rfl
      rw [step]
      have stepJ : jsIncludes (':' :: (nm ++ render rest)) (':' :: k)
          = (isPre (':' :: k) (':' :: (nm ++ render rest))
              || jsIncludes (nm ++ render rest) (':' :: k)) := rfl
      rw [stepJ, jsIncludes_append_no_colon (render rest) k hnmc, ih hrest]
      have hiff : isPre (':' :: k) (':' :: (nm ++ render rest)) = isPre k nm := by
        cases hmatch : isPre k nm with
        | true =>
          simp only [isPre, Bool.and_eq_true, decide_eq_true_eq]
          simp [isPre_append_right _ hmatch]
        | false =>
          have := isPre_param_tail hss hsk hmatch
          simp only [isPre]
          simp [this]
      rw [hiff]
      have stepH : hasParamPre (.param nm :: rest) k
          = (isPre k nm || hasParamPre rest k) := by
        simp [hasParamPre]
      rw [stepH]

/-! ## Preservation lemmas for piece-level substitution -/

theorem startsSlash_subst1 {ps : List Piece} {k rep : List Char}
    (h : startsSlash ps = true) : startsSlash (subst1 ps k rep) = true := by
  cases ps with
  | nil => exact h
  | cons p rest =>
    cases p with
    | lit s =>
      cases s with
      | nil => simp [startsSlash] at h
      | cons c s' => simpa [subst1, startsSlash] using h
    | param nm => simp [startsSlash] at h

theorem wfPieces_subst1 {ps : List Piece} {k rep : List Char}
    (hwf : wfPieces ps = true) (hrep : ∀ c ∈ rep, c ≠ ':') :
    wfPieces (subst1 ps k rep) = true := by
  induction ps with
  | nil => exact hwf
  | cons p rest ih =>
    cases p with
    | lit s =>
      obtain ⟨hs, hrest⟩ := wf_lit_head hwf
      have : subst1 (.lit s :: rest) k rep = .lit s :: subst1 rest k rep := rfl
      rw [this]
      simp only [wfPieces, Bool.and_eq_true, List.all_eq_true, bne_iff_ne]
      exact ⟨fun c hc => hs c hc, ih hrest⟩
    | param nm =>
      obtain ⟨hnmc, hnms, hss, hrest⟩ := wf_param_head hwf
      cases hmatch : isPre k nm with
      | true =>
        have : subst1 (.param nm :: rest) k rep
            = .lit (rep ++ nm.drop k.length) :: rest := by simp [subst1, hmatch]
        rw [this]
        simp only [wfPieces, Bool.and_eq_true, List.all_eq_true, bne_iff_ne]
        refine ⟨fun c hc => ?_, hrest⟩
        rcases List.mem_append.mp hc with h1 | h1
        · exact hrep c h1
        · exact hnmc c (List.drop_subset _ _ h1)
      | false =>
        have : subst1 (.param nm :: rest) k rep
            = .param nm :: subst1 rest k rep := by simp [subst1, hmatch]
        rw [this]
        simp only [wfPieces, Bool.and_eq_true, List.all_eq_true, bne_iff_ne]
        exact ⟨⟨⟨fun c hc => hnmc c hc, fun c hc => hnms c hc⟩,
          startsSlash_subst1 hss⟩, ih hrest⟩

theorem paramNames_subst1_sublist (ps : List Piece) (k rep : List Char) :
    (paramNames (subst1 ps k rep)).Sublist (paramNames ps) := by
  induction ps with
  | nil => simp [subst1]
  | cons p rest ih =>
    cases p with
    | lit s => simpa [subst1, paramNames] using ih
    | param nm =>
      cases hmatch : isPre k nm with
      | true =>
        have : subst1 (.param nm :: rest) k rep
            = .lit (rep ++ nm.drop k.length) :: rest := by simp [subst1, hmatch]
        rw [this]
        show (paramNames rest).Sublist (nm :: paramNames rest)
        exact List.sublist_cons_self nm _
      | false =>
        have : subst1 (.param nm :: rest) k rep
            = .param nm :: subst1 rest k rep := by simp [subst1, hmatch]
        rw [this]
        exact List.Sublist.cons₂ nm ih

theorem namesOK_cons {a : List Char} {l : List (List Char)} :
    namesOK (a :: l) = (l.all (fun x => !isPre a x && !isPre x a) && namesOK l) := rfl

theorem namesOK_of_sublist {l1 l2 : List (List Char)} (h : l1.Sublist l2)
    (hok : namesOK l2 = true) : namesOK l1 = true := by
  induction h with
  | slnil => rfl
  | cons a _ ih =>
    rw [namesOK_cons, Bool.and_eq_true] at hok
    exact ih hok.2
  | cons₂ a hsub ih =>
    rw [namesOK_cons, Bool.and_eq_true] at hok ⊢
    refine ⟨?_, ih hok.2⟩
    rw [List.all_eq_true] at hok ⊢
    exact fun x hx => hok.1 x (hsub.subset hx)

theorem not_mem_paramNames_subst1 {ps : List Piece} {nm rep : List Char}
    (hok : namesOK (paramNames ps) = true) :
    nm ∉ paramNames (subst1 ps nm rep) := by
  induction ps with
  | nil => simp [subst1, paramNames]
  | cons p rest ih =>
    cases p with
    | lit s =>
      have : paramNames (subst1 (.lit s :: rest) nm rep)
          = paramNames (subst1 rest nm rep) := rfl
      rw [this]
      exact ih hok
    | param nm2 =>
      have hok' := hok
      rw [show paramNames (.param nm2 :: rest) = nm2 :: paramNames rest from rfl,
        namesOK_cons, Bool.and_eq_true, List.all_eq_true] at hok'
      cases hmatch : isPre nm nm2 with
      | true =>
        have hstep : subst1 (.param nm2 :: rest) nm rep
            = .lit (rep ++ nm2.drop nm.length) :: rest := by simp [subst1, hmatch]
        rw [hstep]
        intro hmem
        have hmem' : nm ∈ paramNames rest := hmem
        have := hok'.1 nm hmem'
        simp only [Bool.and_eq_true, Bool.not_eq_true'] at this
        rw [hmatch] at this
        exact Bool.true_eq_false.mp this.2
      | false =>
        have hstep : subst1 (.param nm2 :: rest) nm rep
            = .param nm2 :: subst1 rest nm rep := by simp [subst1, hmatch]
        rw [hstep]
        intro hmem
        have hmem' : nm ∈ nm2 :: paramNames (subst1 rest nm rep) := hmem
        rcases List.mem_cons.mp hmem' with rfl | htail
        · rw [isPre_refl] at hmatch
          exact Bool.true_eq_false.mp hmatch
        · exact ih hok'.2 htail

theorem param_mem_of_mem_names {ps : List Piece} {nm : List Char}
    (h : nm ∈ paramNames ps) : Piece.param nm ∈ ps := by
  induction ps with
  | nil => simp [paramNames] at h
  | cons p rest ih =>
    cases p with
    | lit s => exact List.mem_cons_of_mem _ (ih h)
    | param nm2 =>
      have h' : nm ∈ nm2 :: paramNames rest := h
      rcases List.mem_cons.mp h' with rfl | htail
      · exact List.mem_cons_self _ _
      · exact List.mem_cons_of_mem _ (ih htail)

theorem hasParamPre_of_mem {ps : List Piece} {nm : List Char}
    (h : nm ∈ paramNames ps) : hasParamPre ps nm = true := by
  rw [hasParamPre, List.any_eq_true]
  refine ⟨.param nm, param_mem_of_mem_names h, ?_⟩
  simp [isPre_refl]

theorem lit_mem_subst1 {ps : List Piece} {s k rep : List Char}
    (h : Piece.lit s ∈ ps) : Piece.lit s ∈ subst1 ps k rep := by
  induction ps with
  | nil => simp at h
  | cons p rest ih =>
    cases p with
    | lit s2 =>
      rcases List.mem_cons.mp h with heq | htail
      · exact heq ▸ List.mem_cons_self _ _
      · exact List.mem_cons_of_mem _ (ih htail)
    | param nm =>
      have htail : Piece.lit s ∈ rest := by
        rcases List.mem_cons.mp h with heq | htail
        · cases heq
        · exact htail
      cases hmatch : isPre k nm with
      | true =>
        have hstep : subst1 (.param nm :: rest) k rep
            = .lit (rep ++ nm.drop k.length) :: rest := by simp [subst1, hmatch]
        rw [hstep]
        exact List.mem_cons_of_mem _ htail
      | false =>
        have hstep : subst1 (.param nm :: rest) k rep
            = .param nm :: subst1 rest k rep := by simp [subst1, hmatch]
        rw [hstep]
        exact List.mem_cons_of_mem _ (ih htail)

theorem exists_junk_of_subst1 {ps : List Piece} {k rep : List Char}
    (h : hasParamPre ps k = true) :
    ∃ t, Piece.lit (rep ++ t) ∈ subst1 ps k rep := by
  induction ps with
  | nil => simp [hasParamPre] at h
  | cons p rest ih =>
    cases p with
    | lit s =>
      have h' : hasParamPre rest k = true := by simpa [hasParamPre] using h
      obtain ⟨t, ht⟩ := ih h'
      exact ⟨t, List.mem_cons_of_mem _ ht⟩
    | param nm =>
      cases hmatch : isPre k nm with
      | true =>
        have hstep : subst1 (.param nm :: rest) k rep
            = .lit (rep ++ nm.drop k.length) :: rest := by simp [subst1, hmatch]
        exact ⟨nm.drop k.length, hstep ▸ List.mem_cons_self _ _⟩
      | false =>
        have h' : hasParamPre rest k = true := by
          simpa [hasParamPre, hmatch] using h
        obtain ⟨t, ht⟩ := ih h'
        have hstep : subst1 (.param nm :: rest) k rep
            = .param nm :: subst1 rest k rep := by simp [subst1, hmatch]
        exact ⟨t, hstep ▸ List.mem_cons_of_mem _ ht⟩

theorem render_of_lit_mem {ps : List Piece} {s : List Char}
    (h : Piece.lit s ∈ ps) : ∃ a b, render ps = a ++ (s ++ b) := by
  induction ps with
  | nil => simp at h
  | cons p rest ih =>
    cases p with
    | lit s2 =>
      rcases List.mem_cons.mp h with heq | htail
      · cases heq
        exact ⟨[], render rest, rfl⟩
      · obtain ⟨a, b, hab⟩ := ih htail
        exact ⟨s2 ++ a, b, by simp [render, hab]⟩
    | param nm =>
      have htail : Piece.lit s ∈ rest := by
        rcases List.mem_cons.mp h with heq | htail
        · cases heq
        · exact htail
      obtain ⟨a, b, hab⟩ := ih htail
      refine ⟨':' :: (nm ++ a), b, ?_⟩
      have : render (.param nm :: rest) = ':' :: (nm ++ render rest) := rfl
      rw [this, hab]
      simp

theorem render_no_params_no_colon {ps : List Piece}
    (hwf : wfPieces ps = true) (hnames : paramNames ps = []) :
    ∀ c ∈ render ps, c ≠ ':' := by
  induction ps with
  | nil => simp [render]
  | cons p rest ih =>
    cases p with
    | lit s =>
      obtain ⟨hs, hrest⟩ := wf_lit_head hwf
      have hn : paramNames rest = [] := hnames
      intro c hc
      have : render (.lit s :: rest) = s ++ render rest := rfl
      rw [this] at hc
      rcases List.mem_append.mp hc with h1 | h1
      · exact hs c h1
      · exact ih hrest hn c h1
    | param nm =>
      exact absurd hnames (by simp [paramNames])

/-! ## The substitution loop at the piece level -/

def pieceFold (args : List (String × JsValue)) (st : PieceState) : PieceState :=
  args.foldl pieceStep st

theorem encURI_no_colon (s : List Char) : ∀ c ∈ encodeURIComponent s, c ≠ ':' :=
  fun _ hc => (mem_encodeURIComponent_ne hc).1

theorem pieceStep_wf {st : PieceState} (kv : String × JsValue)
    (h1 : wfPieces st.pieces = true) (h2 : namesOK (paramNames st.pieces) = true) :
    wfPieces (pieceStep st kv).pieces = true ∧
      namesOK (paramNames (pieceStep st kv).pieces) = true := by
  cases hc : hasParamPre st.pieces kv.1.data with
  | true =>
    have hpieces : (pieceStep st kv).pieces
        = subst1 st.pieces kv.1.data (encodeURIComponent (jsString kv.2).data) := by
      simp [pieceStep, hc]
    rw [hpieces]
    exact ⟨wfPieces_subst1 h1 (encURI_no_colon _),
      namesOK_of_sublist (paramNames_subst1_sublist _ _ _) h2⟩
  | false =>
    have hpieces : pieceStep st kv = st := by simp [pieceStep, hc]
    rw [hpieces]
    exact ⟨h1, h2⟩

theorem pieceStep_names_sublist (st : PieceState) (kv : String × JsValue) :
    (paramNames (pieceStep st kv).pieces).Sublist (paramNames st.pieces) := by
  cases hc : hasParamPre st.pieces kv.1.data with
  | true =>
    have hpieces : (pieceStep st kv).pieces
        = subst1 st.pieces kv.1.data (encodeURIComponent (jsString kv.2).data) := by
      simp [pieceStep, hc]
    rw [hpieces]
    exact paramNames_subst1_sublist _ _ _
  | false =>
    have hpieces : pieceStep st kv = st := by simp [pieceStep, hc]
    rw [hpieces]

theorem pieceFold_wf (args : List (String × JsValue)) {st : PieceState}
    (h1 : wfPieces st.pieces = true) (h2 : namesOK (paramNames st.pieces) = true) :
    wfPieces (pieceFold args st).pieces = true ∧
      namesOK (paramNames (pieceFold args st).pieces) = true := by
  induction args generalizing st with
  | nil => exact ⟨h1, h2⟩
  | cons kv rest ih =>
    obtain ⟨h1', h2'⟩ := pieceStep_wf kv h1 h2
    exact ih h1' h2'

theorem pieceFold_names_sublist (args : List (String × JsValue)) (st : PieceState) :
    (paramNames (pieceFold args st).pieces).Sublist (paramNames st.pieces) := by
  induction args generalizing st with
  | nil => exact List.Sublist.refl _
  | cons kv rest ih =>
    exact (ih (pieceStep st kv)).trans (pieceStep_names_sublist st kv)

theorem pieceFold_kill (args : List (String × JsValue)) {st : PieceState} {nm : List Char}
    (h1 : wfPieces st.pieces = true) (h2 : namesOK (paramNames st.pieces) = true)
    (hmem : nm ∈ args.map (fun kv => kv.1.data)) :
    nm ∉ paramNames (pieceFold args st).pieces := by
  induction args generalizing st with
  | nil => simp at hmem
  | cons kv rest ih =>
    rw [List.map_cons] at hmem
    rcases List.mem_cons.mp hmem with hhd | htl
    · -- the key being processed is exactly `nm`: after this step the
      -- parameter named `nm` is gone, and it never comes back.
      have hdead : nm ∉ paramNames (pieceStep st kv).pieces := by
        cases hc : hasParamPre st.pieces kv.1.data with
        | true =>
          have hpieces : (pieceStep st kv).pieces
              = subst1 st.pieces kv.1.data (encodeURIComponent (jsString kv.2).data) := by
            simp [pieceStep, hc]
          rw [hpieces, ← hhd]
          exact not_mem_paramNames_subst1 h2
        | false =>
          have hpieces : pieceStep st kv = st := by simp [pieceStep, hc]
          rw [hpieces]
          intro hin
          rw [← hhd] at hc
          rw [hasParamPre_of_mem hin] at hc
          exact Bool.true_eq_false.mp hc
      intro hin
      exact hdead ((pieceFold_names_sublist rest (pieceStep st kv)).subset hin)
    · obtain ⟨h1', h2'⟩ := pieceStep_wf kv h1 h2
      exact ih h1' h2' htl

theorem pieceFold_consumed_subset (args : List (String × JsValue)) (st : PieceState) :
    ∀ kv ∈ (pieceFold args st).consumed, kv ∈ st.consumed ∨ kv ∈ args := by
  induction args generalizing st with
  | nil => exact fun kv h => .inl h
  | cons kv0 rest ih =>
    intro kv h
    rcases ih (pieceStep st kv0) kv h with hc | hr
    · cases hfire : hasParamPre st.pieces kv0.1.data with
      | true =>
        have : (pieceStep st kv0).consumed = st.consumed ++ [kv0] := by
          simp [pieceStep, hfire]
        rw [this] at hc
        rcases List.mem_append.mp hc with h1 | h1
        · exact .inl h1
        · simp only [List.mem_singleton] at h1
          exact .inr (h1 ▸ List.mem_cons_self _ _)
      | false =>
        have : pieceStep st kv0 = st := by simp [pieceStep, hfire]
        rw [this] at hc
        exact .inl hc
    · exact .inr (List.mem_cons_of_mem _ hr)

theorem pieceStep_body_excl {st : PieceState} (kv0 : String × JsValue)
    (hinv : ∀ kv ∈ st.consumed, kv.1 ∉ st.bodyArgs.map Prod.fst) :
    ∀ kv ∈ (pieceStep st kv0).consumed,
      kv.1 ∉ (pieceStep st kv0).bodyArgs.map Prod.fst := by
  cases hfire : hasParamPre st.pieces kv0.1.data with
  | false =>
    have : pieceStep st kv0 = st := by simp [pieceStep, hfire]
    rw [this]
    exact hinv
  | true =>
    have hcons : (pieceStep st kv0).consumed = st.consumed ++ [kv0] := by
      simp [pieceStep, hfire]
    have hbody : (pieceStep st kv0).bodyArgs
        = st.bodyArgs.filter (fun e => e.1 ≠ kv0.1) := by
      simp [pieceStep, hfire]
    rw [hcons, hbody]
    intro kv hkv hmem
    obtain ⟨e, he, hfst⟩ := List.mem_map.mp hmem
    have hek := List.of_mem_filter he
    have hef : e ∈ st.bodyArgs := List.mem_of_mem_filter he
    simp only [decide_eq_true_eq] at hek
    rcases List.mem_append.mp hkv with h1 | h1
    · exact hinv kv h1 (List.mem_map.mpr ⟨e, hef, hfst⟩)
    · simp only [List.mem_singleton] at h1
      subst h1
      exact hek (hfst)

theorem pieceFold_body_excl (args : List (String × JsValue)) {st : PieceState}
    (hinv : ∀ kv ∈ st.consumed, kv.1 ∉ st.bodyArgs.map Prod.fst) :
    ∀ kv ∈ (pieceFold args st).consumed,
      kv.1 ∉ (pieceFold args st).bodyArgs.map Prod.fst := by
  induction args generalizing st with
  | nil => exact hinv
  | cons kv0 rest ih => exact ih (pieceStep_body_excl kv0 hinv)

theorem pieceStep_junk {st : PieceState} (kv0 : String × JsValue)
    (hinv : ∀ kv ∈ st.consumed,
      ∃ t, Piece.lit (encodeURIComponent (jsString kv.2).data ++ t) ∈ st.pieces) :
    ∀ kv ∈ (pieceStep st kv0).consumed,
      ∃ t, Piece.lit (encodeURIComponent (jsString kv.2).data ++ t)
        ∈ (pieceStep st kv0).pieces := by
  cases hfire : hasParamPre st.pieces kv0.1.data with
  | false =>
    have : pieceStep st kv0 = st := by simp [pieceStep, hfire]
    rw [this]
    exact hinv
  | true =>
    have hcons : (pieceStep st kv0).consumed = st.consumed ++ [kv0] := by
      simp [pieceStep, hfire]
    have hpieces : (pieceStep st kv0).pieces
        = subst1 st.pieces kv0.1.data (encodeURIComponent (jsString kv0.2).data) := by
      simp [pieceStep, hfire]
    rw [hcons, hpieces]
    intro kv hkv
    rcases List.mem_append.mp hkv with h1 | h1
    · obtain ⟨t, ht⟩ := hinv kv h1
      exact ⟨t, lit_mem_subst1 ht⟩
    · simp only [List.mem_singleton] at h1
      subst h1
      exact exists_junk_of_subst1 hfire

theorem pieceFold_junk (args : List (String × JsValue)) {st : PieceState}
    (hinv : ∀ kv ∈ st.consumed,
      ∃ t, Piece.lit (encodeURIComponent (jsString kv.2).data ++ t) ∈ st.pieces) :
    ∀ kv ∈ (pieceFold args st).consumed,
      ∃ t, Piece.lit (encodeURIComponent (jsString kv.2).data ++ t)
        ∈ (pieceFold args st).pieces := by
  induction args generalizing st with
  | nil => exact hinv
  | cons kv0 rest ih => exact ih (pieceStep_junk kv0 hinv)

/-- The string-level substitution loop of the source is simulated exactly by
the piece-level loop, provided the argument keys contain no '/'. -/
theorem substFold_eq_pieceFold (args : List (String × JsValue)) (st : PieceState)
    (h1 : wfPieces st.pieces = true)
    (hkeys : ∀ kv ∈ args, ∀ c ∈ (kv.1 : String).data, c ≠ '/') :
    args.foldl substStep ⟨render st.pieces, st.bodyArgs, st.consumed⟩
      = ⟨render (pieceFold args st).pieces, (pieceFold args st).bodyArgs,
          (pieceFold args st).consumed⟩ := by
  induction args generalizing st with
  | nil => rfl
  | cons kv rest ih =>
    have hkv : ∀ c ∈ (kv.1 : String).data, c ≠ '/' := hkeys kv (List.mem_cons_self _ _)
    have hstep : substStep ⟨render st.pieces, st.bodyArgs, st.consumed⟩ kv
        = ⟨render (pieceStep st kv).pieces, (pieceStep st kv).bodyArgs,
            (pieceStep st kv).consumed⟩ := by
      cases hc : hasParamPre st.pieces kv.1.data with
      | true =>
        have hinc : jsIncludes (render st.pieces) (':' :: kv.1.data) = true := by
          rw [jsIncludes_render h1 hkv, hc]
        simp only [substStep, pieceStep, hc, hinc, if_true]
        refine congrArg (fun u => (⟨u, _, _⟩ : ResolveState)) ?_
        exact replaceFirst_render h1 hkv
      | false =>
        have hinc : jsIncludes (render st.pieces) (':' :: kv.1.data) = false := by
          rw [jsIncludes_render h1 hkv, hc]
        simp [substStep, pieceStep, hc, hinc]
    have hfoldl : (kv :: rest).foldl substStep ⟨render st.pieces, st.bodyArgs, st.consumed⟩
        = rest.foldl substStep (substStep ⟨render st.pieces, st.bodyArgs, st.consumed⟩ kv) := rfl
    rw [hfoldl, hstep]
    have h1' : wfPieces (pieceStep st kv).pieces = true := by
      cases hc : hasParamPre st.pieces kv.1.data with
      | true =>
        have hpieces : (pieceStep st kv).pieces
            = subst1 st.pieces kv.1.data (encodeURIComponent (jsString kv.2).data) := by
          simp [pieceStep, hc]
        rw [hpieces]
        exact wfPieces_subst1 h1 (encURI_no_colon _)
      | false =>
        have hpieces : pieceStep st kv = st := by simp [pieceStep, hc]
        rw [hpieces]
        exact h1
    exact ih (pieceStep st kv) h1' (fun e he => hkeys e (List.mem_cons_of_mem _ he))

/-! ## Registry-wide facts -/

/-- A registry template is usable by the general substitution theorems:
it parses into well-formed pieces and parsing round-trips. -/
def templateOK (url : String) : Bool :=
  wfTemplate (parseTemplate url) && (render (parseTemplate url) == url.data)

set_option maxRecDepth 8000 in
theorem COMMAND_MAPPING_wf :
    COMMAND_MAPPING.all (fun e => templateOK e.2.url) = true := by decide

set_option maxRecDepth 8000 in
theorem COMMAND_MAPPING_keys_nodup : (COMMAND_MAPPING.map Prod.fst).Nodup := by decide

/-- In a list with pairwise-distinct keys, a key determines its value. -/
theorem value_unique_of_keys_nodup {l : List (String × JsValue)}
    (h : (l.map Prod.fst).Nodup) {k : String} {a b : JsValue}
    (ha : (k, a) ∈ l) (hb : (k, b) ∈ l) : a = b := by
  induction l with
  | nil => simp at ha
  | cons x xs ih =>
    rw [List.map_cons, List.nodup_cons] at h
    rcases List.mem_cons.mp ha with rfl | hta
    · rcases List.mem_cons.mp hb with heq | htb
      · injection heq with h1 h2
        exact h2.symm
      · exact absurd (List.mem_map.mpr ⟨(k, b), htb, rfl⟩) h.1
    · rcases List.mem_cons.mp hb with rfl | htb
      · exact absurd (List.mem_map.mpr ⟨(k, a), hta, rfl⟩) h.1
      · exact ih h.2 hta htb

/-- Soundness of `queryParams`: every emitted pair comes from an `args`
entry whose encoded value does **not** occur in the URL. -/
theorem queryParams_key_sound {url : List Char} {args : List (String × JsValue)}
    {p : String × String} (h : p ∈ queryParams url args) :
    ∃ e ∈ args, e.1 = p.1 ∧
      jsIncludes url (encodeURIComponent (jsString e.2).data) = false := by
  obtain ⟨e, he, hf⟩ := List.mem_filterMap.mp h
  by_cases hskip : jsIncludes url (encodeURIComponent (jsString e.2).data) = true
  · rw [if_pos hskip] at hf
    exact Option.noConfusion hf
  · have hninc : jsIncludes url (encodeURIComponent (jsString e.2).data) = false := by
      cases hjs : jsIncludes url (encodeURIComponent (jsString e.2).data) with
      | true => exact absurd hjs hskip
      | false => rfl
    rw [if_neg hskip] at hf
    refine ⟨e, he, ?_, hninc⟩
    cases hv : e.2 with
    | vUndefined => rw [hv] at hf; exact Option.noConfusion hf
    | vNull => rw [hv] at hf; exact Option.noConfusion hf
    | vStr s => rw [hv] at hf; exact congrArg Prod.fst (Option.some.inj hf)
    | vNum n => rw [hv] at hf; exact congrArg Prod.fst (Option.some.inj hf)
    | vBool b => rw [hv] at hf; exact congrArg Prod.fst (Option.some.inj hf)
    | vObj fs => rw [hv] at hf; exact congrArg Prod.fst (Option.some.inj hf)

/-- **C2**: for every HTTP-mode invocation whose args contain a value for
each `:key` token of the command's path template (argument keys, like all
real parameter names, contain no '/'), the resolved request URL contains
zero ':'-prefixed tokens, and every key consumed by path substitution is
excluded from the query-parameter list and from the JSON body object;
in particular the scenario `invoke` against template `/api/things/:id`
with `{id: "42", verbose: true}` produces `GET /api/things/42?verbose=true`. -/
theorem C2_path_substitution :
    (∀ cmd desc (args : List (String × JsValue)),
      (cmd, desc) ∈ COMMAND_MAPPING →
      (∀ kv ∈ args, ∀ c ∈ (kv.1 : String).data, c ≠ '/') →
      (args.map Prod.fst).Nodup →
      (∀ nm ∈ paramNames (parseTemplate desc.url), ∃ v, (String.mk nm, v) ∈ args) →
      (∀ c ∈ (resolvePath desc.url args).url, c ≠ ':') ∧
      (∀ kv ∈ (resolvePath desc.url args).consumed,
        kv.1 ∉ (queryParams (resolvePath desc.url args).url args).map Prod.fst) ∧
      (∀ kv ∈ (resolvePath desc.url args).consumed,
        kv.1 ∉ (resolvePath desc.url args).bodyArgs.map Prod.fst)) ∧
    buildForMapping ⟨"/api/things/:id", .GET⟩
        (some [("id", .vStr "42"), ("verbose", .vBool true)])
      = ⟨"/api/things/42".data, .GET, [("verbose", "true")], none⟩ ∧
    finalUrl (buildForMapping ⟨"/api/things/:id", .GET⟩
        (some [("id", .vStr "42"), ("verbose", .vBool true)]))
      = "/api/things/42?verbose=true".data := by
  refine ⟨?_, by rfl, by rfl⟩
  intro cmd desc args hmem hkeys hnodup hcover
  have htok : templateOK desc.url = true :=
    List.all_eq_true.mp COMMAND_MAPPING_wf (cmd, desc) hmem
  rw [templateOK, Bool.and_eq_true, wfTemplate, Bool.and_eq_true] at htok
  obtain ⟨⟨hwf, hok⟩, hrenderb⟩ := htok
  have hrender : render (parseTemplate desc.url) = desc.url.data := beq_iff_eq.mp hrenderb
  set ps0 := parseTemplate desc.url with hps0
  set st0 : PieceState := ⟨ps0, args, []⟩ with hst0
  have hconsumed0 : ∀ kv0 ∈ st0.consumed, False := by
    intro kv0 h0
    simp [hst0] at h0
  have hres : resolvePath desc.url args
      = ⟨render (pieceFold args st0).pieces, (pieceFold args st0).bodyArgs,
          (pieceFold args st0).consumed⟩ := by
    rw [resolvePath, ← hrender]
    exact substFold_eq_pieceFold args st0 hwf hkeys
  have hwfF := @pieceFold_wf args st0 hwf hok
  have hnamesF : paramNames (pieceFold args st0).pieces = [] := by
    rw [List.eq_nil_iff_forall_not_mem]
    intro nm hin
    have hin0 : nm ∈ paramNames ps0 := (pieceFold_names_sublist args st0).subset hin
    obtain ⟨v, hv⟩ := hcover nm hin0
    have hnmk : nm ∈ args.map (fun kv => kv.1.data) :=
      List.mem_map.mpr ⟨(String.mk nm, v), hv, rfl⟩
    exact pieceFold_kill args hwf hok hnmk hin
  refine ⟨?_, ?_, ?_⟩
  · rw [hres]
    exact render_no_params_no_colon hwfF.1 hnamesF
  · rw [hres]
    intro kv hkv hmemq
    obtain ⟨p, hp, hpfst⟩ := List.mem_map.mp hmemq
    obtain ⟨e, he, hefst, heninc⟩ := queryParams_key_sound hp
    have hkvargs : kv ∈ args := by
      rcases pieceFold_consumed_subset args st0 kv hkv with h0 | h0
      · exact absurd h0 (hconsumed0 kv)
      · exact h0
    have hkey : e.1 = kv.1 := hefst.trans hpfst
    have hvals : e.2 = kv.2 := by
      have he' : (kv.1, e.2) ∈ args := by
        have heq : e = (kv.1, e.2) := by
          cases e
          simp only [Prod.mk.injEq]
          exact ⟨hkey, trivial⟩
        rwa [heq] at he
      have hkv' : (kv.1, kv.2) ∈ args := by simpa using hkvargs
      exact value_unique_of_keys_nodup hnodup he' hkv'
    obtain ⟨t, hjunk⟩ := @pieceFold_junk args st0 (fun kv0 h0 => (hconsumed0 kv0 h0).elim) kv hkv
    obtain ⟨a, b, hab⟩ := render_of_lit_mem hjunk
    have hinc : jsIncludes (render (pieceFold args st0).pieces)
        (encodeURIComponent (jsString kv.2).data) = true := by
      rw [hab, List.append_assoc]
      exact jsIncludes_parts a _ (t ++ b)
    rw [hvals, hinc] at heninc
    exact Bool.true_eq_false.mp heninc
  · rw [hres]
    exact @pieceFold_body_excl args st0 (fun kv0 h0 => (hconsumed0 kv0 h0).elim)

/-- Witness for `C2_path_substitution`: the registry command
`get_proxy_log_detail` invoked with `{logId: "7"}` satisfies the
hypotheses, and its resolved URL contains no ':'. -/
theorem C2_path_substitution_witness :
    (("get_proxy_log_detail", (⟨"/api/logs/:logId", .GET⟩ : CommandDescriptor))
        ∈ COMMAND_MAPPING) ∧
    (∀ c ∈ (resolvePath "/api/logs/:logId" [("logId", .vStr "7")]).url, c ≠ ':') := by
  constructor
  · decide
  · have hcov : ∀ nm ∈ paramNames (parseTemplate "/api/logs/:logId"),
        ∃ v, (String.mk nm, v) ∈ [("logId", JsValue.vStr "7")] := by
      intro nm hnm
      have hp : paramNames (parseTemplate "/api/logs/:logId") = ["logId".data] := by rfl
      rw [hp] at hnm
      have heq : nm = "logId".data := List.mem_singleton.mp hnm
      subst heq
      exact ⟨.vStr "7", by simp⟩
    exact (C2_path_substitution.1 "get_proxy_log_detail" ⟨"/api/logs/:logId", .GET⟩
      [("logId", .vStr "7")] (by decide) (by decide) (by decide) hcov).1

/-! ## C6: unmapped commands fail fast -/

/-- **C6**: invoking an HTTP-mode command with no registry entry throws the
"not supported" error; the `Except.error` is produced by the registry lookup
before any `BuiltRequest` exists, so no HTTP request is issued; no fallback
is attempted. -/
theorem C6_unmapped_fails_fast :
    ∀ cmd (args : Option (List (String × JsValue))),
      lookupMapping cmd = none →
      buildWebRequest cmd args
        = .error ("Command [" ++ cmd ++ "] not supported in Web mode.") := by
  intro cmd args hnone
  rw [buildWebRequest, hnone]

/-- Witness for `C6_unmapped_fails_fast`: `does_not_exist` is unmapped and
its web-mode invocation yields exactly the fail-fast error. -/
theorem C6_unmapped_fails_fast_witness :
    lookupMapping "does_not_exist" = none ∧
    buildWebRequest "does_not_exist" none
      = .error "Command [does_not_exist] not supported in Web mode." := by
  refine ⟨by decide, ?_⟩
  rw [C6_unmapped_fails_fast "does_not_exist" none (by decide)]
  exact congrArg (Except.error : String → Except String BuiltRequest) (by decide)

/-! ## C5: `request`-key unwrapping for POST/PATCH bodies -/

/-- **C5 counterexample**: with remaining args
`{request: {a: 1}, extra: 2}` (a `request` key *alongside* another key) the
code sends the unwrapped `request` value as the body, not the args object —
contradicting the claim that unwrapping happens only when `request` is the
sole remaining key. -/
theorem C5_counterexample :
    (buildForMapping ⟨"/api/accounts/switch", .POST⟩
        (some [("request", .vObj [("a", .vNum 1)]), ("extra", .vNum 2)])).body
      = some (.jsonValue (.vObj [("a", .vNum 1)])) ∧
    (buildForMapping ⟨"/api/accounts/switch", .POST⟩
        (some [("request", .vObj [("a", .vNum 1)]), ("extra", .vNum 2)])).body
      ≠ some (.jsonObject [("request", .vObj [("a", .vNum 1)]), ("extra", .vNum 2)]) := by
  refine ⟨rfl, ?_⟩
  intro h
  have h' := Option.some.inj h
  exact RequestBody.noConfusion h'

/-- **C5 (amended)**: for POST/PATCH the remaining args after path
substitution become the JSON body, and the `request` value is unwrapped
whenever a `request` key with a defined value is present — even if other
keys remain (which are then not sent); only when no defined `request` key
remains is the remaining-args object itself sent. -/
theorem C5_body_unwrap :
    (∀ desc (args : List (String × JsValue)),
      desc.method = .POST ∨ desc.method = .PATCH →
      (buildForMapping desc (some args)).body
        = some (requestBody (resolvePath desc.url args).bodyArgs)) ∧
    (∀ bodyArgs : List (String × JsValue),
      (∀ v, lookupKey bodyArgs "request" = some v → isUndef v = false →
        requestBody bodyArgs = .jsonValue v) ∧
      (lookupKey bodyArgs "request" = none →
        requestBody bodyArgs = .jsonObject bodyArgs) ∧
      (∀ v, lookupKey bodyArgs "request" = some v → isUndef v = true →
        requestBody bodyArgs = .jsonObject bodyArgs)) := by
  constructor
  · intro desc args hm
    obtain ⟨url, method⟩ := desc
    rcases hm with hm | hm <;> (cases hm; rfl)
  · intro bodyArgs
    refine ⟨?_, ?_, ?_⟩
    · intro v hv hundef
      rw [requestBody, hv]
      show (if isUndef v = true then RequestBody.jsonObject bodyArgs
          else RequestBody.jsonValue v) = RequestBody.jsonValue v
      rw [hundef]
      simp
    · intro hv
      rw [requestBody, hv]
    · intro v hv hundef
      rw [requestBody, hv]
      show (if isUndef v = true then RequestBody.jsonObject bodyArgs
          else RequestBody.jsonValue v) = RequestBody.jsonObject bodyArgs
      rw [hundef]
      simp

/-- Witness for `C5_body_unwrap`: a POST command with a sole pre-shaped
`request` argument sends its value as the body. -/
theorem C5_body_unwrap_witness :
    ((⟨"/api/accounts/switch", .POST⟩ : CommandDescriptor).method = .POST ∨
      (⟨"/api/accounts/switch", .POST⟩ : CommandDescriptor).method = .PATCH) ∧
    (buildForMapping ⟨"/api/accounts/switch", .POST⟩
        (some [("request", .vObj [("email", .vStr "a@b.c")])])).body
      = some (requestBody
          (resolvePath "/api/accounts/switch"
            [("request", .vObj [("email", .vStr "a@b.c")])]).bodyArgs) :=
  ⟨Or.inl rfl,
    C5_body_unwrap.1 ⟨"/api/accounts/switch", .POST⟩
      [("request", .vObj [("email", .vStr "a@b.c")])] (Or.inl rfl)⟩

/-! ## C7: response classification (web mode) -/

/-- JSON values as produced by the platform JSON parser. -/
inductive Json where
  | jNull
  | jBool (b : Bool)
  | jNum (n : Int)
  | jStr (s : String)
  | jArr (xs : List Json)
  | jObj (fields : List (String × Json))
  deriving Repr

/-- JavaScript truthiness of a parsed JSON value. -/
def jsTruthy : Json → Bool
  | .jNull => false
  | .jBool b => b
  | .jNum n => n != 0
  | .jStr s => s != ""
  | .jArr _ => true
  | .jObj _ => true

/-- `obj.field` access on a parsed JSON value (`undefined`, i.e. `none`,
on non-objects and missing fields). -/
def getField : Json → String → Option Json
  | .jObj fields, k => (fields.find? (fun e => e.1 == k)).map (·.2)
  | _, _ => none

/-- An HTTP response as the web branch of `request` observes it: the status,
the body text, and the platform's parse of that body (`none` when
`JSON.parse` would throw, e.g. on an empty or non-JSON body). -/
structure HttpResponse where
  status : Nat
  bodyText : String
  bodyJson : Option Json

/-- `Response.ok` of the fetch API: status in the range 200–299. -/
def respOk (status : Nat) : Bool := 200 ≤ status && status ≤ 299

def genericErrorMsg (status : Nat) : String := "HTTP Error " ++ toString status

/-- What `throw` receives: either the `error` field of the parsed payload
(any truthy value) or the generic message string. -/
inductive ThrownValue where
  | jsonVal (j : Json)
  | strVal (s : String)
  deriving Repr

inductive WebResult where
  | thrown (e : ThrownValue)
  | resultNull
  | resultJson (j : Json)
  | resultText (t : String)
  deriving Repr

/-- The response-classification tail of web-mode `request`:
non-ok ⇒ `throw errorData.error || "HTTP Error <status>"` (with
`errorData = {}` when the body does not parse); 204 ⇒ null; empty body ⇒
null; non-JSON 2xx body ⇒ the raw text. -/
def classifyResponse (r : HttpResponse) : WebResult :=
  if respOk r.status = false then
    let errorData := r.bodyJson.getD (.jObj [])
    match getField errorData "error" with
    | some e => if jsTruthy e then .thrown (.jsonVal e) else .thrown (.strVal (genericErrorMsg r.status))
    | none => .thrown (.strVal (genericErrorMsg r.status))
  else if r.status = 204 then .resultNull
  else if r.bodyText = "" then .resultNull
  else match r.bodyJson with
    | some j => .resultJson j
    | none => .resultText r.bodyText

/-- **C7**: 204 ⇒ null; non-2xx with a parsed structured error message ⇒
that message is thrown; non-2xx without one ⇒ `"HTTP Error <status>"`;
2xx with empty body ⇒ null; 2xx with a non-JSON body ⇒ the raw text, not a
thrown error. -/
theorem C7_response_classification :
    ∀ r : HttpResponse,
      (r.status = 204 → classifyResponse r = .resultNull) ∧
      (respOk r.status = false →
        ∀ m, getField (r.bodyJson.getD (.jObj [])) "error" = some (.jStr m) → m ≠ "" →
          classifyResponse r = .thrown (.jsonVal (.jStr m))) ∧
      (respOk r.status = false →
        getField (r.bodyJson.getD (.jObj [])) "error" = none →
          classifyResponse r = .thrown (.strVal (genericErrorMsg r.status))) ∧
      (respOk r.status = true → r.status ≠ 204 → r.bodyText = "" →
          classifyResponse r = .resultNull) ∧
      (respOk r.status = true → r.status ≠ 204 → r.bodyText ≠ "" → r.bodyJson = none →
          classifyResponse r = .resultText r.bodyText) := by
  intro r
  refine ⟨?_, ?_, ?_, ?_, ?_⟩
  · intro h204
    have hok : respOk r.status = true := by rw [h204]; decide
    rw [classifyResponse, if_neg (by simp [hok]), if_pos h204]
  · intro hnot m hfield hm
    have htr : jsTruthy (.jStr m) = true := by simpa [jsTruthy] using hm
    rw [classifyResponse, if_pos hnot]
    simp only [hfield, htr, if_pos]
  · intro hnot hfield
    rw [classifyResponse, if_pos hnot]
    simp only [hfield]
  · intro hok h204 hempty
    rw [classifyResponse, if_neg (by simp [hok]), if_neg h204, if_pos hempty]
  · intro hok h204 hnonempty hnojson
    rw [classifyResponse, if_neg (by simp [hok]), if_neg h204, if_neg hnonempty]
    simp only [hnojson]

/-- Witness for `C7_response_classification`: a 204 maps to null, a 500
with a structured `{error: "boom"}` body throws `"boom"`, a 500 with an
unparsable body throws `"HTTP Error 500"`, a 200 with empty body maps to
null, and a 200 with non-JSON body `"pong"` returns the raw text. -/
theorem C7_response_classification_witness :
    classifyResponse ⟨204, "", none⟩ = .resultNull ∧
    classifyResponse ⟨500, "\x7b\"error\":\"boom\"\x7d", some (.jObj [("error", .jStr "boom")])⟩
      = .thrown (.jsonVal (.jStr "boom")) ∧
    classifyResponse ⟨500, "oops", none⟩ = .thrown (.strVal "HTTP Error 500") ∧
    classifyResponse ⟨200, "", none⟩ = .resultNull ∧
    classifyResponse ⟨200, "pong", none⟩ = .resultText "pong" :=
  ⟨(C7_response_classification ⟨204, "", none⟩).1 rfl,
    (C7_response_classification _).2.1 (by decide) "boom" rfl (by decide),
    (C7_response_classification ⟨500, "oops", none⟩).2.2.1 (by decide) rfl,
    (C7_response_classification ⟨200, "", none⟩).2.2.2.1 (by decide) (by decide) rfl,
    (C7_response_classification ⟨200, "pong", none⟩).2.2.2.2 (by decide) (by decide)
      (by decide) rfl⟩

/-! ## C4: debounced unauthorized broadcast

`request` (web mode, 401 branch) keeps a module-level timestamp
`window._lastAuthErrorTime` (initially absent, read as 0) and dispatches
the global `abv-unauthorized` event only when `now - lastAuthError > 2000`.
`AdminAuthGuard`'s mount effect (src/components/navbar/NavLogo.tsx)
registers `handleUnauthorized` — which removes the stored credential — as
the listener for that event, but only on the path where no session key is
stored at mount: with a session key present the effect returns *before*
`addEventListener` (and a successful login reloads the page, so the guard
remounts with the key present).  Event dispatch is synchronous on the
single JS thread, so a dispatched signal runs the handler exactly once
when it is registered, and zero times when it is not. -/

structure AuthState where
  lastAuthErrorTime : Nat
  sessionKey : Option String
  localKey : Option String
  listenerRegistered : Bool
  signalCount : Nat
  clearCount : Nat
  deriving Repr

/-- The guard's mount effect (web mode): with a session key stored it
returns before `addEventListener`; otherwise it migrates a legacy
localStorage key if one exists and registers the unauthorized listener. -/
def guardMount (st : AuthState) : AuthState :=
  match st.sessionKey with
  | some _ => st
  | none =>
    match st.localKey with
    | some k =>
      { st with sessionKey := some k, localKey := none, listenerRegistered := true }
    | none => { st with listenerRegistered := true }

/-- `handleUnauthorized`: removes the stored credential (sessionStorage and
the legacy localStorage copy). -/
def handleUnauthorized (st : AuthState) : AuthState :=
  { st with sessionKey := none, localKey := none, clearCount := st.clearCount + 1 }

/-- The 401 branch of web-mode `request` at wall-clock time `now`
(`now - lastAuthError > 2000` on JS numbers is `lastAuthError + 2000 < now`
on naturals): a fired dispatch runs the guard's handler exactly when the
listener is registered. -/
def observe401 (st : AuthState) (now : Nat) : AuthState :=
  if st.lastAuthErrorTime + 2000 < now then
    let st1 := { st with lastAuthErrorTime := now, signalCount := st.signalCount + 1 }
    if st1.listenerRegistered then handleUnauthorized st1 else st1
  else st

theorem observe401_noop {st : AuthState} {now : Nat}
    (h : now ≤ st.lastAuthErrorTime + 2000) : observe401 st now = st := by
  rw [observe401, if_neg (by omega)]

theorem observe401_window_noop {ts : List Nat} {st : AuthState}
    (h : ∀ t ∈ ts, t ≤ st.lastAuthErrorTime + 2000) :
    ts.foldl observe401 st = st := by
  induction ts with
  | nil => rfl
  | cons t rest ih =>
    have hstep : observe401 st t = st := observe401_noop (h t (List.mem_cons_self _ _))
    calc (t :: rest).foldl observe401 st = rest.foldl observe401 (observe401 st t) := rfl
      _ = rest.foldl observe401 st := by rw [hstep]
      _ = st := ih (fun x hx => h x (List.mem_cons_of_mem _ hx))

/-- **C4 counterexample**: in the normal post-login state the guard mounts
with the session key already stored, so its effect returns before
`addEventListener` and the unauthorized listener is never registered; a
401 then broadcasts the global signal, but the stored credential is
cleared zero times — not exactly once per triggered signal as claimed. -/
theorem C4_counterexample :
    (guardMount ⟨0, some "key", none, false, 0, 0⟩).listenerRegistered = false ∧
    (observe401 (guardMount ⟨0, some "key", none, false, 0, 0⟩) 5000).signalCount = 1 ∧
    (observe401 (guardMount ⟨0, some "key", none, false, 0, 0⟩) 5000).clearCount = 0 ∧
    (observe401 (guardMount ⟨0, some "key", none, false, 0, 0⟩) 5000).sessionKey = some "key" :=
  ⟨rfl, rfl, rfl, rfl⟩

/-- **C4 (amended)**: all 401s observed within one 2-second debounce window
produce exactly one global unauthorized signal — the first fires it, every
later 401 with `t ≤ t0 + 2000` is a no-op.  The stored credential is
cleared exactly once per triggered signal *provided* the guard's
unauthorized listener is registered, which the mount effect does only when
no session key was stored at mount; when the listener is absent — the
normal logged-in state — a triggered signal clears the credential zero
times and the stored key survives. -/
theorem C4_unauthorized_debounce :
    (∀ (st0 : AuthState) (t0 : Nat) (ts : List Nat),
      st0.lastAuthErrorTime + 2000 < t0 →
      (∀ t ∈ ts, t ≤ t0 + 2000) →
      (ts.foldl observe401 (observe401 st0 t0)).signalCount = st0.signalCount + 1 ∧
      (st0.listenerRegistered = true →
        (ts.foldl observe401 (observe401 st0 t0)).clearCount = st0.clearCount + 1 ∧
        (ts.foldl observe401 (observe401 st0 t0)).sessionKey = none) ∧
      (st0.listenerRegistered = false →
        (ts.foldl observe401 (observe401 st0 t0)).clearCount = st0.clearCount ∧
        (ts.foldl observe401 (observe401 st0 t0)).sessionKey = st0.sessionKey)) ∧
    (∀ st : AuthState,
      (∀ k, st.sessionKey = some k → guardMount st = st) ∧
      (st.sessionKey = none → (guardMount st).listenerRegistered = true)) := by
  constructor
  · intro st0 t0 ts hfire hwindow
    cases hreg : st0.listenerRegistered with
    | true =>
      have hstep : observe401 st0 t0
          = ⟨t0, none, none, true, st0.signalCount + 1, st0.clearCount + 1⟩ := by
        rw [observe401, if_pos hfire, if_pos (show st0.listenerRegistered = true from hreg),
          handleUnauthorized]
        simp [hreg]
      have hrest : ts.foldl observe401 (observe401 st0 t0) = observe401 st0 t0 := by
        apply observe401_window_noop
        intro t ht
        rw [hstep]
        exact hwindow t ht
      rw [hrest, hstep]
      refine ⟨rfl, fun _ => ⟨rfl, rfl⟩, fun hcontra => ?_⟩
      cases hcontra
    | false =>
      have hstep : observe401 st0 t0
          = ⟨t0, st0.sessionKey, st0.localKey, false, st0.signalCount + 1, st0.clearCount⟩ := by
        rw [observe401, if_pos hfire,
          if_neg (show ¬(st0.listenerRegistered = true) by rw [hreg]; simp)]
        simp [hreg]
      have hrest : ts.foldl observe401 (observe401 st0 t0) = observe401 st0 t0 := by
        apply observe401_window_noop
        intro t ht
        rw [hstep]
        exact hwindow t ht
      rw [hrest, hstep]
      refine ⟨rfl, fun hcontra => ?_, fun _ => ⟨rfl, rfl⟩⟩
      cases hcontra
  · intro st
    constructor
    · intro k hk
      unfold guardMount
      rw [hk]
    · intro hk
      unfold guardMount
      rw [hk]
      cases hl : st.localKey with
      | some k => rfl
      | none => rfl

/-- Witness for `C4_unauthorized_debounce`: on a guard that mounted with no
stored key (listener registered), three 401s at 5000 ms, 5100 ms and
7000 ms fire one signal and clear the credential exactly once. -/
theorem C4_unauthorized_debounce_witness :
    ((⟨0, none, none, true, 0, 0⟩ : AuthState).lastAuthErrorTime + 2000 < 5000) ∧
    ([5100, 7000].foldl observe401 (observe401 ⟨0, none, none, true, 0, 0⟩ 5000)).signalCount = 1 ∧
    ([5100, 7000].foldl observe401 (observe401 ⟨0, none, none, true, 0, 0⟩ 5000)).clearCount = 1 ∧
    ([5100, 7000].foldl observe401 (observe401 ⟨0, none, none, true, 0, 0⟩ 5000)).sessionKey = none := by
  have h := C4_unauthorized_debounce.1 ⟨0, none, none, true, 0, 0⟩ 5000 [5100, 7000]
    (by decide) (by decide)
  exact ⟨by decide, h.1, (h.2.1 rfl).1, (h.2.1 rfl).2⟩

/-! ## Stream reconciler of `ProxyMonitor.tsx`

`pendingLogsRef` collects pushed entries (deduplicated per event by `id`);
a 500 ms debounced timeout merges them into the `logs` state (dedup by `id`
against the current view, stable sort by `timestamp` descending, `slice(0,
100)`) and then clears the pending buffer.  `loadData` is the authoritative
pull: config → count → history (replaces `logs` wholesale and clears
pending) → stats, all inside one try/catch whose handler only logs. -/

structure ProxyRequestLog where
  id : String
  timestamp : Nat
  deriving DecidableEq, Repr

/-- Event-level dedup of the `proxy://request` listener: ignore the event if
an entry with the same id is already pending, else push. -/
def ingest (pending : List ProxyRequestLog) (e : ProxyRequestLog) : List ProxyRequestLog :=
  if pending.any (fun l => l.id = e.id) then pending else pending ++ [e]

/-- The comparator `(a, b) => b.timestamp - a.timestamp` (descending), as a
total preorder. -/
def tsDesc (a b : ProxyRequestLog) : Prop := b.timestamp ≤ a.timestamp

instance : DecidableRel tsDesc := fun a b => Nat.decLe b.timestamp a.timestamp

instance : IsTotal ProxyRequestLog tsDesc := ⟨fun a b => Nat.le_total b.timestamp a.timestamp⟩

instance : IsTrans ProxyRequestLog tsDesc := ⟨fun _ _ _ h1 h2 => Nat.le_trans h2 h1⟩

/-- The debounced flush body: if nothing is pending the timeout does not
touch the view; otherwise filter out ids already present, prepend, sort by
timestamp descending, truncate to 100, and clear the pending buffer.
ES2019 `Array.sort` is a stable sort, and for a total preorder every stable
sort computes the same list, so it is embedded here as the stable
`insertionSort`.  Returns `(pending', view')`. -/
def flushStep (pending view : List ProxyRequestLog) :
    List ProxyRequestLog × List ProxyRequestLog :=
  if pending.isEmpty then (pending, view)
  else
    let uniqueNewLogs := pending.filter (fun e => !view.any (fun l => l.id = e.id))
    let merged := uniqueNewLogs ++ view
    ([], (List.insertionSort tsDesc merged).take 100)

structure ProxyStats where
  total_requests : Nat
  success_count : Nat
  error_count : Nat
  deriving DecidableEq, Repr

structure MonitorState where
  logs : List ProxyRequestLog
  pending : List ProxyRequestLog
  totalCount : Nat
  stats : ProxyStats
  deriving Repr

/-- Results of the backend calls made by `loadData`, in call order. -/
structure LoadEnv where
  configR : Except Unit Unit
  countR : Except Unit Nat
  historyR : Except Unit (List ProxyRequestLog)
  statsR : Except Unit ProxyStats

/-- `loadData`: sequential awaited steps inside a single try/catch; the
first failing step aborts the remainder but keeps the updates already
applied; the catch handler only logs, so the call always completes
normally.  The boolean records whether an error was caught (and swallowed).
A successful history fetch replaces `logs` wholesale and clears `pending`
in the same step. -/
def loadData (env : LoadEnv) (st : MonitorState) : MonitorState × Bool :=
  match env.configR with
  | .error _ => (st, true)
  | .ok _ =>
    match env.countR with
    | .error _ => (st, true)
    | .ok n =>
      let st1 := { st with totalCount := n }
      match env.historyR with
      | .error _ => (st1, true)
      | .ok h =>
        let st2 := { st1 with logs := h, pending := [] }
        match env.statsR with
        | .error _ => (st2, true)
        | .ok s => ({ st2 with stats := s }, false)

/-! ### Helper lemmas for the flush -/

theorem ingest_ne_nil {p : List ProxyRequestLog} (e : ProxyRequestLog) :
    ingest p e ≠ [] := by
  rw [ingest]
  by_cases h : p.any (fun l => l.id = e.id) = true
  · rw [if_pos h]
    intro hnil
    rw [hnil] at h
    simp at h
  · rw [if_neg h]
    simp

theorem ingestFold_ne_nil (l : List ProxyRequestLog) {p : List ProxyRequestLog}
    (hp : p ≠ []) : l.foldl ingest p ≠ [] := by
  induction l generalizing p with
  | nil => exact hp
  | cons e rest ih =>
    have : (e :: rest).foldl ingest p = rest.foldl ingest (ingest p e) := rfl
    rw [this]
    by_cases h : p.any (fun l => l.id = e.id) = true
    · have : ingest p e = p := by rw [ingest, if_pos h]
      rw [this]
      exact ih hp
    · have : ingest p e = p ++ [e] := by rw [ingest, if_neg h]
      rw [this]
      exact ih (by simp)

theorem ingest_nodup_ids {p : List ProxyRequestLog}
    (hp : (p.map (fun l => l.id)).Nodup) (e : ProxyRequestLog) :
    ((ingest p e).map (fun l => l.id)).Nodup := by
  rw [ingest]
  by_cases h : p.any (fun l => l.id = e.id) = true
  · rw [if_pos h]
    exact hp
  · rw [if_neg h]
    rw [List.map_append, List.map_singleton]
    rw [List.nodup_append]
    refine ⟨hp, List.nodup_singleton _, ?_⟩
    intro x hx hxe
    rw [List.mem_singleton] at hxe
    subst hxe
    obtain ⟨l, hl, hlid⟩ := List.mem_map.mp hx
    apply h
    rw [List.any_eq_true]
    exact ⟨l, hl, by simp [hlid]⟩

theorem ingestFold_nodup_ids (l : List ProxyRequestLog) {p : List ProxyRequestLog}
    (hp : (p.map (fun x => x.id)).Nodup) :
    ((l.foldl ingest p).map (fun x => x.id)).Nodup := by
  induction l generalizing p with
  | nil => exact hp
  | cons e rest ih => exact ih (ingest_nodup_ids hp e)

/-- **C1**: for any sequence of pushed entries ingested into the pending
buffer and any current view with distinct ids, the debounced flush clears
the pending buffer and produces a view that is deduplicated by id, sorted
by timestamp descending, truncated to 100 entries, and drawn only from the
pending buffer and the previous view; in particular ingesting
`a@100, b@200, a@100` and flushing on an empty view yields exactly `[b, a]`. -/
theorem C1_debounced_flush :
    (∀ (entries view : List ProxyRequestLog),
      entries ≠ [] →
      ((view.map (fun l => l.id)).Nodup) →
      (flushStep (entries.foldl ingest []) view).1 = [] ∧
      List.Pairwise tsDesc (flushStep (entries.foldl ingest []) view).2 ∧
      (flushStep (entries.foldl ingest []) view).2.length ≤ 100 ∧
      (((flushStep (entries.foldl ingest []) view).2.map (fun l => l.id)).Nodup) ∧
      (∀ e ∈ (flushStep (entries.foldl ingest []) view).2,
        e ∈ entries.foldl ingest [] ∨ e ∈ view)) ∧
    flushStep ([⟨"a", 100⟩, ⟨"b", 200⟩, ⟨"a", 100⟩].foldl ingest []) []
      = ([], [⟨"b", 200⟩, ⟨"a", 100⟩]) := by
  constructor
  · intro entries view hne hview
    have hpending : entries.foldl ingest [] ≠ [] := by
      cases entries with
      | nil => exact absurd rfl hne
      | cons e rest =>
        have : (e :: rest).foldl ingest [] = rest.foldl ingest (ingest [] e) := rfl
        rw [this]
        exact ingestFold_ne_nil rest (ingest_ne_nil e)
    have hnotempty : (entries.foldl ingest []).isEmpty = false := by
      cases hi : entries.foldl ingest [] with
      | nil => exact absurd hi hpending
      | cons x xs => rfl
    set pending := entries.foldl ingest [] with hpdef
    set uniqueNewLogs := pending.filter (fun e => !view.any (fun l => l.id = e.id))
      with hudef
    set merged := uniqueNewLogs ++ view with hmdef
    have hflush : flushStep pending view
        = ([], (List.insertionSort tsDesc merged).take 100) := by
      rw [flushStep, if_neg (by simp [hnotempty])]
    have hpnodup : (pending.map (fun x => x.id)).Nodup :=
      ingestFold_nodup_ids entries (by simp)
    have hsorted : List.Pairwise tsDesc (List.insertionSort tsDesc merged) :=
      List.sorted_insertionSort tsDesc merged
    have hperm : (List.insertionSort tsDesc merged).Perm merged :=
      List.perm_insertionSort tsDesc merged
    have hunodup : (uniqueNewLogs.map (fun x => x.id)).Nodup :=
      ((List.filter_sublist pending).map (fun x => x.id)).nodup hpnodup
    have hdisj : ∀ x, x ∈ uniqueNewLogs.map (fun l => l.id) →
        x ∈ view.map (fun l => l.id) → False := by
      intro x hxu hxv
      obtain ⟨e, he, rfl⟩ := List.mem_map.mp hxu
      obtain ⟨he', hef⟩ := List.mem_filter.mp he
      obtain ⟨l, hl, hlid⟩ := List.mem_map.mp hxv
      have : view.any (fun l => l.id = e.id) = true := by
        rw [List.any_eq_true]
        exact ⟨l, hl, by simp [hlid]⟩
      rw [this] at hef
      simp at hef
    have hmnodup : (merged.map (fun x => x.id)).Nodup := by
      rw [hmdef, List.map_append, List.nodup_append]
      exact ⟨hunodup, hview, hdisj⟩
    have hsnodup : ((List.insertionSort tsDesc merged).map (fun x => x.id)).Nodup :=
      ((hperm.map (fun x => x.id)).nodup_iff).mpr hmnodup
    rw [hflush]
    refine ⟨rfl, ?_, ?_, ?_, ?_⟩
    · exact hsorted.sublist (List.take_sublist 100 _)
    · exact List.length_take_le 100 _
    · rw [List.map_take]
      exact hsnodup.sublist (List.take_sublist 100 _)
    · intro e hemem
      have : e ∈ List.insertionSort tsDesc merged := List.take_subset 100 _ hemem
      have : e ∈ merged := hperm.mem_iff.mp this
      rcases List.mem_append.mp this with h1 | h1
      · exact Or.inl (List.mem_filter.mp h1).1
      · exact Or.inr h1
  · decide

/-- Witness for `C1_debounced_flush`: the a/b/a scenario satisfies the
hypotheses, flushing clears the pending buffer and stays within the
100-entry bound. -/
theorem C1_debounced_flush_witness :
    (([⟨"a", 100⟩, ⟨"b", 200⟩, ⟨"a", 100⟩] : List ProxyRequestLog) ≠ []) ∧
    (flushStep ([⟨"a", 100⟩, ⟨"b", 200⟩, ⟨"a", 100⟩].foldl ingest []) []).1 = [] ∧
    (flushStep ([⟨"a", 100⟩, ⟨"b", 200⟩, ⟨"a", 100⟩].foldl ingest []) []).2.length ≤ 100 := by
  refine ⟨by simp, ?_⟩
  have h := C1_debounced_flush.1 [⟨"a", 100⟩, ⟨"b", 200⟩, ⟨"a", 100⟩] []
    (by simp) (by simp)
  exact ⟨h.1, h.2.2.1⟩

/-! ## C3: authoritative pull (`loadData`) -/

/-- **C3 counterexample**: when the history fetch fails after the count
fetch succeeded, `loadData` has already updated the total count (5 ≠ 0),
so a failed authoritative pull does *not* leave the counts untouched; the
error is caught and logged (`loadData` completes normally, boolean `true`
records the swallowed error), so the failure is not surfaced to the caller
either. -/
theorem C3_counterexample :
    (loadData ⟨.ok (), .ok 5, .error (), .ok ⟨0, 0, 0⟩⟩
        ⟨[⟨"old", 50⟩], [⟨"p", 60⟩], 0, ⟨0, 0, 0⟩⟩).1.totalCount = 5 ∧
    (⟨[⟨"old", 50⟩], [⟨"p", 60⟩], 0, ⟨0, 0, 0⟩⟩ : MonitorState).totalCount = 0 ∧
    (loadData ⟨.ok (), .ok 5, .error (), .ok ⟨0, 0, 0⟩⟩
        ⟨[⟨"old", 50⟩], [⟨"p", 60⟩], 0, ⟨0, 0, 0⟩⟩).2 = true :=
  ⟨rfl, rfl, rfl⟩

/-- **C3 (amended)**: a fully successful pull replaces the view wholesale
with the pulled entries, sets the authoritative count and stats, and
unconditionally clears the pending buffer (even if push entries were
pending).  On failure, the view and the pending buffer are never partially
updated — view replacement and pending clearing happen atomically in the
history step — but steps that already succeeded persist (a count fetched
before a failing history fetch stays applied), and the failure is caught
and logged rather than surfaced: `loadData` completes normally in every
case, returning `true` in the flag component instead of raising. -/
theorem C3_authoritative_pull :
    ∀ (env : LoadEnv) (st : MonitorState),
      (∀ n h s, env.configR = .ok () → env.countR = .ok n → env.historyR = .ok h →
        env.statsR = .ok s →
        loadData env st = (⟨h, [], n, s⟩, false)) ∧
      (∀ n, env.configR = .ok () → env.countR = .ok n → env.historyR = .error () →
        loadData env st = (⟨st.logs, st.pending, n, st.stats⟩, true)) ∧
      (env.configR = .ok () → env.countR = .error () →
        loadData env st = (st, true)) ∧
      (env.configR = .error () →
        loadData env st = (st, true)) := by
  intro env st
  refine ⟨?_, ?_, ?_, ?_⟩
  · intro n h s hc hn hh hs
    rw [loadData, hc, hn, hh, hs]
  · intro n hc hn hh
    rw [loadData, hc, hn, hh]
  · intro hc hn
    rw [loadData, hc, hn]
  · intro hc
    rw [loadData, hc]

/-- Witness for `C3_authoritative_pull`: a successful pull over a state
with a pending push entry ends with the pulled view and an empty pending
buffer. -/
theorem C3_authoritative_pull_witness :
    ((⟨.ok (), .ok 1, .ok [⟨"n", 300⟩], .ok ⟨1, 1, 0⟩⟩ : LoadEnv).configR = .ok ()) ∧
    loadData ⟨.ok (), .ok 1, .ok [⟨"n", 300⟩], .ok ⟨1, 1, 0⟩⟩
        ⟨[⟨"old", 50⟩], [⟨"p", 60⟩], 0, ⟨0, 0, 0⟩⟩
      = (⟨[⟨"n", 300⟩], [], 1, ⟨1, 1, 0⟩⟩, false) :=
  ⟨rfl,
    (C3_authoritative_pull ⟨.ok (), .ok 1, .ok [⟨"n", 300⟩], .ok ⟨1, 1, 0⟩⟩
        ⟨[⟨"old", 50⟩], [⟨"p", 60⟩], 0, ⟨0, 0, 0⟩⟩).1
      1 [⟨"n", 300⟩] ⟨1, 1, 0⟩ rfl rfl rfl rfl⟩

/-! ## Debug-console feed (`useDebugConsole`) -/

structure DebugLogEntry where
  id : Nat
  timestamp : Nat
  message : String
  deriving DecidableEq, Repr

def MAX_LOGS : Nat := 5000

/-- `addLog`: append unconditionally; when the length exceeds `MAX_LOGS`,
keep only the last `MAX_LOGS` entries (`slice(-MAX_LOGS)` drops from the
front, i.e. the oldest-appended entries). -/
def addLog (logs : List DebugLogEntry) (log : DebugLogEntry) : List DebugLogEntry :=
  let newLogs := logs ++ [log]
  if MAX_LOGS < newLogs.length then newLogs.drop (newLogs.length - MAX_LOGS) else newLogs

/-! ## C8: the capacity bound -/

/-- **C8 counterexample**: a successful authoritative pull replaces the
request-log view wholesale with the pulled page without client-side
truncation; with the user-selectable page size of 200 or 500 the backend
may return more than 100 rows, and the view then exceeds N_max = 100 —
here a 101-entry pull yields a 101-entry view. -/
theorem C8_counterexample :
    ((loadData
        ⟨.ok (), .ok 101, .ok ((List.range 101).map (fun i => ⟨toString i, i⟩)), .ok ⟨0, 0, 0⟩⟩
        ⟨[], [], 0, ⟨0, 0, 0⟩⟩).1.logs).length = 101 ∧ 100 < 101 := by
  constructor
  · show ((List.range 101).map (fun i => (⟨toString i, i⟩ : ProxyRequestLog))).length = 101
    rw [List.length_map, List.length_range]
  · decide

/-- **C8 (amended)**: the capacity bound holds on the push/merge path —
after every flush the request-log view has at most 100 entries, and after
every `addLog` the debug-log view has at most 5000 entries, with the oldest
entries evicted first (the flush keeps the top of the descending sort, so
every evicted entry is no newer than every kept one; `addLog` drops from
the front, keeping a suffix) — but an authoritative pull replaces the view
with the full pulled page, which is not truncated client-side and may
exceed the bound. -/
theorem C8_push_path_bounded :
    (∀ pending view, (flushStep pending view).2.length ≤ 100 ∨
      (flushStep pending view).2 = view) ∧
    (∀ pending view, pending ≠ [] →
      (flushStep pending view).2.length ≤ 100 ∧
      ∃ dropped,
        List.insertionSort tsDesc
            (pending.filter (fun e => !view.any (fun l => l.id = e.id)) ++ view)
          = (flushStep pending view).2 ++ dropped ∧
        ∀ a ∈ (flushStep pending view).2, ∀ b ∈ dropped, b.timestamp ≤ a.timestamp) ∧
    (∀ logs e, (addLog logs e).length ≤ MAX_LOGS ∨ addLog logs e = logs ++ [e]) ∧
    (∀ logs e, (addLog logs e).length ≤ max (logs.length + 1) MAX_LOGS ∧
      (addLog logs e).IsSuffix (logs ++ [e])) := by
  refine ⟨?_, ?_, ?_, ?_⟩
  · intro pending view
    by_cases hp : pending.isEmpty = true
    · right
      rw [flushStep, if_pos hp]
    · left
      rw [flushStep, if_neg hp]
      exact List.length_take_le 100 _
  · intro pending view hp
    have hne : pending.isEmpty = false := by
      cases hq : pending with
      | nil => exact absurd hq hp
      | cons x xs => rfl
    have hflush : flushStep pending view
        = ([], (List.insertionSort tsDesc
            (pending.filter (fun e => !view.any (fun l => l.id = e.id)) ++ view)).take 100) := by
      rw [flushStep, if_neg (by simp [hne])]
    rw [hflush]
    refine ⟨List.length_take_le 100 _, ?_⟩
    set sorted := List.insertionSort tsDesc
      (pending.filter (fun e => !view.any (fun l => l.id = e.id)) ++ view) with hs
    refine ⟨sorted.drop 100, (List.take_append_drop 100 sorted).symm, ?_⟩
    intro a ha b hb
    have hsorted : List.Pairwise tsDesc sorted := List.sorted_insertionSort tsDesc _
    have hsplit : List.Pairwise tsDesc (sorted.take 100 ++ sorted.drop 100) := by
      rw [List.take_append_drop]
      exact hsorted
    exact (List.pairwise_append.mp hsplit).2.2 a ha b hb
  · intro logs e
    by_cases h : MAX_LOGS < (logs ++ [e]).length
    · left
      rw [addLog]
      simp only [h, if_true]
      rw [List.length_drop]
      omega
    · right
      rw [addLog]
      simp only [h, if_false]
  · intro logs e
    constructor
    · by_cases h : MAX_LOGS < (logs ++ [e]).length
      · rw [addLog]
        simp only [h, if_true]
        rw [List.length_drop]
        omega
      · rw [addLog]
        simp only [h, if_false]
        simp only [List.length_append, List.length_singleton]
        omega
    · by_cases h : MAX_LOGS < (logs ++ [e]).length
      · rw [addLog]
        simp only [h, if_true]
        exact List.drop_suffix _ _
      · rw [addLog]
        simp only [h, if_false]
        exact List.suffix_refl _

/-- Witness for `C8_push_path_bounded`: a flush of one pending entry over
an empty view is bounded by 100 and evicts nothing. -/
theorem C8_push_path_bounded_witness :
    (([(⟨"x", 1⟩ : ProxyRequestLog)] : List ProxyRequestLog) ≠ []) ∧
    (flushStep [⟨"x", 1⟩] []).2.length ≤ 100 :=
  ⟨by simp, (C8_push_path_bounded.2.1 [⟨"x", 1⟩] [] (by simp)).1⟩

/-! ## C9: subscription lifecycle of the debug-console store

`startPolling` is guarded by `if (get().pollInterval) return` and
`startListening` by `if (unlistenFn) return` (plus the web-mode early
return); `stopPolling`/`stopListening` are plain no-ops when nothing is
live.  `enable`, `disable` and `checkEnabled` pick exactly one mechanism
according to `isTauri()`; `startPolling` is only ever reached in web mode
and `startListening` only subscribes in Tauri mode. -/

structure SubscriptionState where
  isEnabled : Bool
  isOpen : Bool
  unlistenFn : Option Nat
  pollInterval : Option Nat
  deriving DecidableEq, Repr

def startPolling (st : SubscriptionState) (id : Nat) : SubscriptionState :=
  if st.pollInterval.isSome then st else { st with pollInterval := some id }

def stopPolling (st : SubscriptionState) : SubscriptionState :=
  match st.pollInterval with
  | some _ => { st with pollInterval := none }
  | none => st

def startListening (tauri : Bool) (st : SubscriptionState)
    (listenR : Except Unit Nat) : SubscriptionState :=
  if tauri = false then st
  else if st.unlistenFn.isSome then st
  else
    match listenR with
    | .ok h => { st with unlistenFn := some h }
    | .error _ => st

def stopListening (st : SubscriptionState) : SubscriptionState :=
  match st.unlistenFn with
  | some _ => { st with unlistenFn := none }
  | none => st

/-- `enable`: backend enable call, then exactly one of listener or timer
depending on the transport (a failed backend call is caught before any
mechanism starts). -/
def enable (tauri : Bool) (st : SubscriptionState) (invokeR : Except Unit Unit)
    (listenR : Except Unit Nat) (pollId : Nat) : SubscriptionState :=
  match invokeR with
  | .error _ => st
  | .ok _ =>
    let st1 := { st with isEnabled := true }
    if tauri then startListening tauri st1 listenR else startPolling st1 pollId

/-- `disable`: backend disable call, then cancel whichever mechanism the
transport uses, then clear the enabled flag. -/
def disable (tauri : Bool) (st : SubscriptionState)
    (invokeR : Except Unit Unit) : SubscriptionState :=
  match invokeR with
  | .error _ => st
  | .ok _ =>
    let st1 := if tauri then stopListening st else stopPolling st
    { st1 with isEnabled := false }

/-- `checkEnabled`: query the backend flag and, when set, start the
transport-appropriate mechanism. -/
def checkEnabled (tauri : Bool) (st : SubscriptionState) (checkR : Except Unit Bool)
    (listenR : Except Unit Nat) (pollId : Nat) : SubscriptionState :=
  match checkR with
  | .error _ => st
  | .ok b =>
    let st1 := { st with isEnabled := b }
    if b then (if tauri then startListening tauri st1 listenR else startPolling st1 pollId)
    else st1

/-- The operations the application performs on the store, with the results
of the awaited backend/listen calls as data (`startPolling` has no direct
caller outside the store: it is reached only through `enable` and
`checkEnabled`, and only in web mode). -/
inductive SubOp where
  | opEnable (invokeR : Except Unit Unit) (listenR : Except Unit Nat) (pollId : Nat)
  | opDisable (invokeR : Except Unit Unit)
  | opCheckEnabled (checkR : Except Unit Bool) (listenR : Except Unit Nat) (pollId : Nat)
  | opStartListening (listenR : Except Unit Nat)
  | opStopListening
  | opStopPolling

def applySubOp (tauri : Bool) (st : SubscriptionState) : SubOp → SubscriptionState
  | .opEnable i l p => enable tauri st i l p
  | .opDisable i => disable tauri st i
  | .opCheckEnabled c l p => checkEnabled tauri st c l p
  | .opStartListening l => startListening tauri st l
  | .opStopListening => stopListening st
  | .opStopPolling => stopPolling st

theorem startListening_poll (t : Bool) (st : SubscriptionState) (l : Except Unit Nat) :
    (startListening t st l).pollInterval = st.pollInterval := by
  unfold startListening
  split
  · rfl
  · split
    · rfl
    · split <;> rfl

theorem stopListening_poll (st : SubscriptionState) :
    (stopListening st).pollInterval = st.pollInterval := by
  rw [stopListening]
  split <;> rfl

theorem startPolling_unlisten (st : SubscriptionState) (id : Nat) :
    (startPolling st id).unlistenFn = st.unlistenFn := by
  rw [startPolling]
  split <;> rfl

theorem stopPolling_unlisten (st : SubscriptionState) :
    (stopPolling st).unlistenFn = st.unlistenFn := by
  rw [stopPolling]
  split <;> rfl

theorem applySubOp_poll_tauri (op : SubOp) (st : SubscriptionState)
    (h : st.pollInterval = none) : (applySubOp true st op).pollInterval = none := by
  cases op with
  | opEnable i l p =>
    cases i with
    | error e => exact h
    | ok u =>
      show (startListening true { st with isEnabled := true } l).pollInterval = none
      rw [startListening_poll]
      exact h
  | opDisable i =>
    cases i with
    | error e => exact h
    | ok u =>
      show (stopListening st).pollInterval = none
      rw [stopListening_poll]
      exact h
  | opCheckEnabled c l p =>
    cases c with
    | error e => exact h
    | ok b =>
      cases b with
      | true =>
        show (startListening true { st with isEnabled := true } l).pollInterval = none
        rw [startListening_poll]
        exact h
      | false => exact h
  | opStartListening l =>
    show (startListening true st l).pollInterval = none
    rw [startListening_poll]
    exact h
  | opStopListening =>
    show (stopListening st).pollInterval = none
    rw [stopListening_poll]
    exact h
  | opStopPolling => simp [applySubOp, stopPolling, h]

theorem applySubOp_unlisten_web (op : SubOp) (st : SubscriptionState)
    (h : st.unlistenFn = none) : (applySubOp false st op).unlistenFn = none := by
  cases op with
  | opEnable i l p =>
    cases i with
    | error e => exact h
    | ok u =>
      show (startPolling { st with isEnabled := true } p).unlistenFn = none
      rw [startPolling_unlisten]
      exact h
  | opDisable i =>
    cases i with
    | error e => exact h
    | ok u =>
      show (stopPolling st).unlistenFn = none
      rw [stopPolling_unlisten]
      exact h
  | opCheckEnabled c l p =>
    cases c with
    | error e => exact h
    | ok b =>
      cases b with
      | true =>
        show (startPolling { st with isEnabled := true } p).unlistenFn = none
        rw [startPolling_unlisten]
        exact h
      | false => exact h
  | opStartListening l => exact h
  | opStopListening => simp [applySubOp, stopListening, h]
  | opStopPolling =>
    show (stopPolling st).unlistenFn = none
    rw [stopPolling_unlisten]
    exact h

theorem foldSubOp_poll_tauri (ops : List SubOp) {st : SubscriptionState}
    (h : st.pollInterval = none) :
    (ops.foldl (applySubOp true) st).pollInterval = none := by
  induction ops generalizing st with
  | nil => exact h
  | cons op rest ih => exact ih (applySubOp_poll_tauri op st h)

theorem foldSubOp_unlisten_web (ops : List SubOp) {st : SubscriptionState}
    (h : st.unlistenFn = none) :
    (ops.foldl (applySubOp false) st).unlistenFn = none := by
  induction ops generalizing st with
  | nil => exact h
  | cons op rest ih => exact ih (applySubOp_unlisten_web op st h)

/-- **C9**: starting while a handle is live is a no-op (the boolean guard
prevents a second listener or timer), stopping is safe when the feed was
never started (a no-op, not an error), and along every sequence of store
operations from the initial state at most one mechanism — the Tauri
listener or the polling timer — is ever live. -/
theorem C9_subscription_lifecycle :
    (∀ (st : SubscriptionState) (id : Nat),
      st.pollInterval.isSome = true → startPolling st id = st) ∧
    (∀ (t : Bool) (st : SubscriptionState) (l : Except Unit Nat),
      st.unlistenFn.isSome = true → startListening t st l = st) ∧
    (∀ st : SubscriptionState, st.pollInterval = none → stopPolling st = st) ∧
    (∀ st : SubscriptionState, st.unlistenFn = none → stopListening st = st) ∧
    (∀ (tauri : Bool) (ops : List SubOp),
      ¬((ops.foldl (applySubOp tauri) ⟨false, false, none, none⟩).unlistenFn.isSome = true ∧
        (ops.foldl (applySubOp tauri) ⟨false, false, none, none⟩).pollInterval.isSome = true)) := by
  refine ⟨?_, ?_, ?_, ?_, ?_⟩
  · intro st id h
    rw [startPolling, if_pos h]
  · intro t st l h
    cases t with
    | false =>
      unfold startListening
      rw [if_pos rfl]
    | true =>
      unfold startListening
      rw [if_neg (by simp), if_pos h]
  · intro st h
    simp [stopPolling, h]
  · intro st h
    simp [stopListening, h]
  · intro tauri ops
    cases tauri with
    | true =>
      intro hcon
      have hp := @foldSubOp_poll_tauri ops ⟨false, false, none, none⟩ rfl
      rw [hp] at hcon
      simp at hcon
    | false =>
      intro hcon
      have hu := @foldSubOp_unlisten_web ops ⟨false, false, none, none⟩ rfl
      rw [hu] at hcon
      simp at hcon

/-- Witness for `C9_subscription_lifecycle`: with a timer live, calling
`startPolling` again changes nothing; and a stop on the fresh store is a
no-op. -/
theorem C9_subscription_lifecycle_witness :
    ((⟨true, true, none, some 7⟩ : SubscriptionState).pollInterval.isSome = true) ∧
    startPolling ⟨true, true, none, some 7⟩ 9 = ⟨true, true, none, some 7⟩ ∧
    stopPolling ⟨false, false, none, none⟩ = ⟨false, false, none, none⟩ :=
  ⟨rfl, C9_subscription_lifecycle.1 ⟨true, true, none, some 7⟩ 9 rfl,
    C9_subscription_lifecycle.2.2.1 ⟨false, false, none, none⟩ rfl⟩

/-! ## C10: `addLog` appends without dedup or re-sort -/

/-- **C10**: pushing two debug-log entries with the same id via `addLog`
keeps both: `addLog` appends unconditionally in arrival order (no dedup by
id, no re-sort by timestamp — here the second entry has an older timestamp
and still lands last), unlike the request-log feed's `ingest`, which drops
a pending duplicate id. -/
theorem C10_addLog_no_dedup :
    (∀ (logs : List DebugLogEntry) (e1 e2 : DebugLogEntry),
      e1.id = e2.id → logs.length + 2 ≤ MAX_LOGS →
      addLog (addLog logs e1) e2 = logs ++ [e1, e2]) ∧
    (∀ (p : List ProxyRequestLog) (e e2 : ProxyRequestLog),
      e.id = e2.id → ingest (ingest p e) e2 = ingest p e) := by
  constructor
  · intro logs e1 e2 _ hlen
    have hm : logs.length + 2 ≤ 5000 := hlen
    have hc1 : ¬ MAX_LOGS < (logs ++ [e1]).length := by
      rw [List.length_append]
      simp only [List.length_cons, List.length_nil, MAX_LOGS]
      omega
    have h1 : addLog logs e1 = logs ++ [e1] := by
      rw [addLog, if_neg hc1]
    have hc2 : ¬ MAX_LOGS < (logs ++ [e1] ++ [e2]).length := by
      rw [List.length_append, List.length_append]
      simp only [List.length_cons, List.length_nil, MAX_LOGS]
      omega
    rw [h1, addLog, if_neg hc2]
    simp
  · intro p e e2 hid
    by_cases h : p.any (fun l => l.id = e.id) = true
    · have he : ingest p e = p := by rw [ingest, if_pos h]
      have h2 : p.any (fun l => l.id = e2.id) = true := by
        simp only [← hid]
        exact h
      rw [he, ingest, if_pos h2]
    · have he : ingest p e = p ++ [e] := by rw [ingest, if_neg h]
      have h2 : (p ++ [e]).any (fun l => l.id = e2.id) = true := by
        rw [List.any_eq_true]
        exact ⟨e, by simp, by simp [hid]⟩
      rw [he, ingest, if_pos h2]

/-- Witness for `C10_addLog_no_dedup`: two entries with id 1 (the second
older) are both present, in arrival order. -/
theorem C10_addLog_no_dedup_witness :
    ((⟨1, 100, "x"⟩ : DebugLogEntry).id = (⟨1, 50, "y"⟩ : DebugLogEntry).id) ∧
    addLog (addLog [] ⟨1, 100, "x"⟩) ⟨1, 50, "y"⟩ = [⟨1, 100, "x"⟩, ⟨1, 50, "y"⟩] :=
  ⟨rfl, C10_addLog_no_dedup.1 [] ⟨1, 100, "x"⟩ ⟨1, 50, "y"⟩ rfl (by simp [MAX_LOGS])⟩

end AGM

